import Mathlib

/-
  Verification of the XMLTV EPG conversion pipeline (scripts/update-epg.mjs).

  This file shallowly embeds the core of the script:
    * parseXmltvTime  : XMLTV timestamp string -> UTC instant (milliseconds),
      built on a model of ECMAScript Date.UTC (MakeFullYear / MakeDay /
      MakeTime, with floor division written as Int division, which in Lean is
      Euclidean division and agrees with mathematical floor division for the
      positive constant divisors used here);
    * formatTimeIST   : render an instant shifted by +5:30 using the Date
      getters (the script runs with a UTC host timezone - GitHub Actions -
      so the local-time getters coincide with the UTC getters modelled here);
    * stripTags       : tag removal, whitespace collapsing, trimming;
    * parseEPGProgrammes : the global regex scan over <programme> blocks;
    * groupByChannel  : bucketing by channel id;
    * the image-resolution side feature (title index and lookup).

  JavaScript regular expressions are modelled as explicit scanners over
  character lists; each scanner's doc comment names the regex it implements
  and the comment explains why the scanner has the same leftmost-match
  semantics.  Character classes use the ASCII interpretations (the feed and
  all patterns in the script are ASCII).
-/

namespace Epg

/-! ### Characters and JavaScript string primitives -/

/-- Digit value of an ASCII digit character (JavaScript `Number` on a digit). -/
def dv (c : Char) : Nat := c.toNat - 48

/-- JavaScript whitespace, ASCII part: space, tab, newline, carriage return,
vertical tab, form feed.  This is the set matched by the regex class `\s` and
trimmed by `String.prototype.trim` (restricted to ASCII; the feed is ASCII). -/
def isSpaceJS (c : Char) : Bool :=
  c = ' ' || c = '\t' || c = '\n' || c = '\r' || c.toNat = 11 || c.toNat = 12

/-- Leading-whitespace removal. -/
def trimHead (cs : List Char) : List Char := cs.dropWhile isSpaceJS

/-- Trailing-whitespace removal. -/
def trimTail (cs : List Char) : List Char := (cs.reverse.dropWhile isSpaceJS).reverse

/-- Model of JavaScript `String.prototype.trim`. -/
def trimJS (cs : List Char) : List Char := trimTail (trimHead cs)

/-- `trim` packaged on `String` (used where the script calls `.trim()`). -/
def jsTrim (s : String) : String := String.mk (trimJS s.data)

/-! ### ECMAScript date arithmetic (the part of `Date` used by the script) -/

/-- ECMAScript MakeFullYear: integer years 0..99 are read as 1900..1999. -/
def makeFullYear (y : Int) : Int := if 0 ≤ y ∧ y ≤ 99 then 1900 + y else y

/-- Proleptic-Gregorian leap year test (ECMAScript InLeapYear). -/
def isLeapB (y : Int) : Bool := decide (y % 4 = 0 ∧ (y % 100 ≠ 0 ∨ y % 400 = 0))

/-- Days in year `y` (365 or 366). -/
def daysInYear (y : Int) : Nat := if isLeapB y then 366 else 365

/-- ECMAScript DayFromYear: day number (relative to 1970-01-01) of January 1
of year `y`.  Int division is floor division here (positive divisors). -/
def dayFromYear (y : Int) : Int :=
  365 * (y - 1970) + (y - 1969) / 4 - (y - 1901) / 100 + (y - 1601) / 400

/-- Cumulative day counts at the start of each (0-based) month in a
non-leap year (ECMAScript DayWithinYear month boundaries). -/
def cumBase : Nat → Nat
  | 0 => 0 | 1 => 31 | 2 => 59 | 3 => 90 | 4 => 120 | 5 => 151 | 6 => 181
  | 7 => 212 | 8 => 243 | 9 => 273 | 10 => 304 | 11 => 334 | _ => 365

/-- Cumulative day count at the start of 0-based month `m`, leap-aware. -/
def cumDaysN (leap : Bool) (m : Nat) : Nat :=
  cumBase m + (if leap && decide (2 ≤ m) then 1 else 0)

/-- ECMAScript MakeDay(y, m, dt): day number of the civil date, where `m` is a
0-based month that may lie outside 0..11 (it is normalized by carrying whole
years, `ym = y + floor(m / 12)`, `mn = m modulo 12`) and `dt` is 1-based and
unconstrained (days are added linearly). -/
def makeDay (y m dt : Int) : Int :=
  let ym := y + m / 12
  let mn := (m % 12).toNat
  dayFromYear ym + (cumDaysN (isLeapB ym) mn : Int) + (dt - 1)

/-- Model of `Date.UTC(y, mo, d, h, mi, s)` in milliseconds
(MakeDate of MakeDay and MakeTime, with MakeFullYear applied to the year).
In the range reachable from 14-digit timestamps the result stays far below
the ECMAScript time-value bound of 8.64e15 ms, so TimeClip never yields NaN
and is omitted. -/
def jsDateUTC (y mo d h mi s : Int) : Int :=
  makeDay (makeFullYear y) mo d * 86400000 + h * 3600000 + mi * 60000 + s * 1000

/-- Modelled from the spec: the instant obtained by "reading the digits as UTC
wall-clock components" (normalizing out-of-range components by arithmetic
carry, as the spec's rollover language describes), with no two-digit-year
reinterpretation.  This is the specification-side reading used to state the
refinement claims about `parseXmltvTime`; the code side is `jsDateUTC`. -/
def specUtcMillis (y mo d h mi s : Int) : Int :=
  makeDay y mo d * 86400000 + h * 3600000 + mi * 60000 + s * 1000

/-! ### The timestamp scanner (`parseXmltvTime`) -/

/-- Timezone designator token captured by the regex group
`([+-]\d{2}:?\d{2}|[+-]\d{4}|Z)` (with the `i` flag, so `z` also matches). -/
inductive TzTok where
  | zulu : TzTok
  | numOff (neg : Bool) (hh mm : Nat) : TzTok
deriving DecidableEq

/-- Two leading digits of a list, as a number. -/
def twoDigitVal? : List Char → Option Nat
  | m1 :: m2 :: _ => if m1.isDigit && m2.isDigit then some (dv m1 * 10 + dv m2) else none
  | _ => none

/-- Minutes part of a numeric offset: `:?\d\d`.  The quantifier `:?` is
greedy, but no backtracking is observable: if a colon is present and digits do
not follow it, the colon-free alternative would have to read a digit where the
colon stands, which also fails. -/
def scanTzMin (l : List Char) : Option Nat :=
  match l with
  | x :: rest => if x = ':' then twoDigitVal? rest else twoDigitVal? (x :: rest)
  | [] => none

/-- The optional timezone designator after the digits:
`[+-]\d{2}:?\d{2}|[+-]\d{4}|Z` case-insensitively.  The middle alternative
`[+-]\d{4}` is subsumed by the first (with `:?` matching nothing), so it never
contributes a match the first alternative would not produce. -/
def scanTz : List Char → Option TzTok
  | [] => none
  | c :: rest =>
    if c = 'Z' || c = 'z' then some TzTok.zulu
    else if c = '+' || c = '-' then
      match rest with
      | h1 :: h2 :: rest2 =>
        if h1.isDigit && h2.isDigit then
          match scanTzMin rest2 with
          | some mm => some (TzTok.numOff (c == '-') (dv h1 * 10 + dv h2) mm)
          | none => none
        else none
      | _ => none
    else none

/-- The value `Number(..)` of two sliced digit characters. -/
def digitVal2 (a b : Char) : Nat := dv a * 10 + dv b

/-- The value `Number(..)` of four sliced digit characters (the year slice). -/
def digitVal4 (a b c d : Char) : Nat := dv a * 1000 + dv b * 100 + dv c * 10 + dv d

/-- The `\d{14}` test on the first fourteen characters. -/
def allDigits14 (y1 y2 y3 y4 o1 o2 a1 a2 b1 b2 c1 c2 e1 e2 : Char) : Bool :=
  y1.isDigit && y2.isDigit && y3.isDigit && y4.isDigit && o1.isDigit && o2.isDigit &&
    a1.isDigit && a2.isDigit && b1.isDigit && b2.isDigit && c1.isDigit && c2.isDigit &&
    e1.isDigit && e2.isDigit

/-- Core of `parseXmltvTime` after trimming: the anchored regex
`^(\d{14})(?:\s*([+-]\d{2}:?\d{2}|[+-]\d{4}|Z))?` followed by the source's
slicing (`Number(dt.slice ...)`), `Date.UTC`, and the offset subtraction
`utcMillis -= offsetMinutes * 60 * 1000` when a numeric designator (not `Z`)
was captured.  Trailing text after the match is ignored, exactly as the
un-anchored tail of the regex ignores it. -/
def parseChars (cs : List Char) : Option Int :=
  match cs.take 14 with
  | [y1, y2, y3, y4, o1, o2, a1, a2, b1, b2, c1, c2, e1, e2] =>
    if allDigits14 y1 y2 y3 y4 o1 o2 a1 a2 b1 b2 c1 c2 e1 e2 then
      let base := jsDateUTC (digitVal4 y1 y2 y3 y4) ((digitVal2 o1 o2 : Int) - 1)
        (digitVal2 a1 a2) (digitVal2 b1 b2) (digitVal2 c1 c2) (digitVal2 e1 e2)
      match scanTz ((cs.drop 14).dropWhile isSpaceJS) with
      | some (TzTok.numOff neg hh mm) =>
          some (base - (if neg then (-1 : Int) else 1) * ((hh : Int) * 60 + (mm : Int)) * 60000)
      | _ => some base
    else none
  | _ => none

/-- Model of `parseXmltvTime(ts)`.  The input may be null (`none`); a falsy
input (null or the empty string) returns null, otherwise the input is trimmed
and scanned.  A successful parse returns the UTC instant in milliseconds
(the time value of the returned `Date`). -/
def parseXmltvTime (ts : Option String) : Option Int :=
  match ts with
  | none => none
  | some s => if s = "" then none else parseChars (trimJS s.data)

/-! ### Date getters (`civilOfMillis`) and rendering (`formatTimeIST`) -/

/-- Days in year `400*era + r` depend only on `r` (0-based year of era). -/
def yoeDays (r : Nat) : Nat := if isLeapB (r : Int) then 366 else 365

/-- Days from March-less year counting: total days in the first `n` years of a
400-year era.  `yoeBase 400 = 146097`. -/
def yoeBase : Nat → Nat
  | 0 => 0
  | n + 1 => yoeBase n + yoeDays n

/-- Strip whole years inside a 400-year era: returns (year of era, day within
that year).  Fuel 400 always suffices for a day-of-era below 146097. -/
def stripYearsGo : Nat → Nat → Nat → Nat × Nat
  | 0, yoe, doy => (yoe, doy)
  | fuel + 1, yoe, doy =>
    if doy < yoeDays yoe then (yoe, doy) else stripYearsGo fuel (yoe + 1) (doy - yoeDays yoe)

/-- ECMAScript YearFromTime / DayWithinYear on a day number: the unique year
`y` with `dayFromYear y ≤ day < dayFromYear (y+1)`, computed by decomposing
into 400-year eras (146097 days each; 719528 days from 0000-01-01 to the
epoch) and stripping years greedily, exactly as the ECMAScript definition of
YearFromTime ("the largest integral y such that TimeFromYear(y) ≤ t"). -/
def yearOfDay (day : Int) : Int × Nat :=
  let z := day + 719528
  let era := z / 146097
  let doe := (z % 146097).toNat
  let p := stripYearsGo 400 0 doe
  (400 * era + (p.1 : Int), p.2)

/-- Month lengths, January first. -/
def monthLens (leap : Bool) : List Nat :=
  [31, if leap then 29 else 28, 31, 30, 31, 30, 31, 31, 30, 31, 30, 31]

/-- Strip whole months from a day-of-year: returns (1-based month, 1-based
day).  On table exhaustion the overflow lands in a virtual 13th month; that
never happens for a day-of-year below the year length. -/
def monthStrip : List Nat → Nat → Nat → Nat × Nat
  | [], m, doy => (m, doy + 1)
  | len :: rest, m, doy =>
    if doy < len then (m, doy + 1) else monthStrip rest (m + 1) (doy - len)

/-- ECMAScript MonthFromTime / DateFromTime on a day-of-year
(1-based month and day). -/
def monthOfDoy (leap : Bool) (doy : Nat) : Nat × Nat := monthStrip (monthLens leap) 1 doy

/-- The civil components read back from an instant by the `Date` getters
(`getFullYear`, `getMonth() + 1`, `getDate`, `getHours`, `getMinutes`,
`getSeconds`; UTC host timezone, see the header). -/
structure Civil where
  year : Int
  month : Nat
  day : Nat
  hour : Nat
  minute : Nat
  second : Nat
deriving DecidableEq

/-- The Date getters: HourFromTime etc. are `floor(t / unit) modulo range`
(ECMAScript), and the calendar part goes through `yearOfDay`/`monthOfDoy`. -/
def civilOfMillis (t : Int) : Civil :=
  let yd := yearOfDay (t / 86400000)
  let md := monthOfDoy (isLeapB yd.1) yd.2
  { year := yd.1, month := md.1, day := md.2,
    hour := ((t / 3600000) % 24).toNat,
    minute := ((t / 60000) % 60).toNat,
    second := ((t / 1000) % 60).toNat }

/-- Digit character for a digit value. -/
def dc (n : Nat) : Char := Char.ofNat (48 + n)

def natToDecGo : Nat → Nat → List Char
  | 0, _ => []
  | fuel + 1, n => if n < 10 then [dc n] else natToDecGo fuel (n / 10) ++ [dc (n % 10)]

/-- Model of JavaScript `String(n)` for a nonnegative integer (30 digits of
fuel cover every value reachable here). -/
def natToDec (n : Nat) : List Char := natToDecGo 30 n

/-- Model of JavaScript `String(i)` for an integer (template literal `${i}`). -/
def intToDec (i : Int) : List Char :=
  if i < 0 then '-' :: natToDec i.natAbs else natToDec i.toNat

/-- Model of `String.prototype.padStart(2, "0")`. -/
def pad2 (l : List Char) : List Char :=
  if 2 ≤ l.length then l else if l.length = 1 then '0' :: l else ['0', '0']

/-- Model of `formatTimeIST(originalTs)`: parse, on failure return the raw
input (empty string for a falsy input), otherwise add the fixed IST offset
5.5 * 3600 * 1000 = 19800000 ms and render
`${yyyy}-${mm}-${dd} ${hh}:${mi}:${ss} IST` with two-digit zero padding on
everything except the year (the source does not pad `yyyy`). -/
def formatTimeIST (originalTs : Option String) : String :=
  match parseXmltvTime originalTs with
  | none => originalTs.getD ""
  | some utcMillis =>
    let ist := civilOfMillis (utcMillis + 19800000)
    String.mk (intToDec ist.year ++ '-' :: pad2 (natToDec ist.month)
      ++ '-' :: pad2 (natToDec ist.day) ++ ' ' :: pad2 (natToDec ist.hour)
      ++ ':' :: pad2 (natToDec ist.minute) ++ ':' :: pad2 (natToDec ist.second)
      ++ [' ', 'I', 'S', 'T'])

/-! ### TagStripper (`stripTags`) -/

/-- Split a character list at its first `'>'`: returns the part before it and
the part after it. -/
def splitAtGt : List Char → Option (List Char × List Char)
  | [] => none
  | c :: rest =>
    if c = '>' then some ([], rest)
    else
      match splitAtGt rest with
      | some (a, b) => some (c :: a, b)
      | none => none

/-- One pass of `s.replace(/<[^>]+>/g, "")`: at each `'<'`, if at least one
non-`'>'` character and then a `'>'` follow, the whole span is deleted and
scanning resumes after the `'>'` (the JavaScript global replace continues
after each leftmost match); otherwise the `'<'` is kept and scanning resumes
at the next character (the engine advances one position after a failed
attempt, and no position inside `<...` can start a match since the pattern
begins with a literal `'<'`).  Fuel bounds the recursion; the input's length
is always enough fuel, and on exhaustion the rest is returned unchanged. -/
def removeTagsGo : Nat → List Char → List Char
  | 0, l => l
  | fuel + 1, l =>
    match l with
    | [] => []
    | c :: rest =>
      if c = '<' then
        match splitAtGt rest with
        | some (inside, tail) =>
          if inside = [] then c :: removeTagsGo fuel rest else removeTagsGo fuel tail
        | none => c :: removeTagsGo fuel rest
      else c :: removeTagsGo fuel rest

/-- `s.replace(/<[^>]+>/g, "")`. -/
def removeTags (cs : List Char) : List Char := removeTagsGo cs.length cs

/-- `s.replace(/\s+/g, " ")` as a one-pass scanner: the flag records whether
the previous character was part of a whitespace run (runs collapse to a
single space). -/
def collapseGo : Bool → List Char → List Char
  | _, [] => []
  | b, c :: rest =>
    if isSpaceJS c then
      if b then collapseGo true rest else ' ' :: collapseGo true rest
    else c :: collapseGo false rest

/-- `s.replace(/\s+/g, " ")`. -/
def collapseWS (cs : List Char) : List Char := collapseGo false cs

/-- Model of `stripTags(s)`: remove tags, collapse whitespace, trim. -/
def stripTags (s : String) : String := String.mk (trimJS (collapseWS (removeTags s.data)))

/-- Does the list start with `'>'`?  (Fixpoint analysis of `removeTags`.) -/
def StartsGt : List Char → Prop
  | [] => False
  | c :: _ => c = '>'

/-- Tag-free form: every `'<'` is either immediately followed by `'>'` (the
pattern `<[^>]+>` needs a nonempty inside) or not followed by any `'>'` at
all.  `removeTagsGo` fixes exactly such lists. -/
def NoTag : List Char → Prop
  | [] => True
  | c :: rest =>
    if c = '<' then (if '>' ∈ rest then StartsGt rest ∧ NoTag rest else True)
    else NoTag rest

/-- Does the list start with a whitespace character? -/
def StartsWS : List Char → Prop
  | [] => False
  | c :: _ => isSpaceJS c = true

/-- Whitespace-normal form: every whitespace character is a single `' '` not
followed by further whitespace.  `collapseGo false` fixes such lists. -/
def WsNorm : List Char → Prop
  | [] => True
  | c :: rest => (isSpaceJS c = true → c = ' ' ∧ ¬ StartsWS rest) ∧ WsNorm rest

/-! ### ProgrammeExtractor (`parseEPGProgrammes`) -/

/-- JavaScript word character, `\w` = `[A-Za-z0-9_]` (ASCII). -/
def isWordChar (c : Char) : Bool := c.isAlphanum || c = '_'

/-- Attribute-name character, the class `[\w:\-]`. -/
def isNameChar (c : Char) : Bool := c.isAlphanum || c = '_' || c = ':' || c = '-'

/-- Does `cs` start with the (lowercase, ASCII) pattern `pat`,
case-insensitively?  Models matching a literal under the regex `i` flag. -/
def startsWithCI : List Char → List Char → Bool
  | [], _ => true
  | _ :: _, [] => false
  | p :: ps, c :: cs => p == c.toLower && startsWithCI ps cs

/-- A `\b` word boundary holds after a word character here iff the next
character is absent or not a word character. -/
def boundaryOk : List Char → Bool
  | [] => true
  | c :: _ => !isWordChar c

/-- Try each pattern (in order) at the head of `cs`; on success return the
suffix after the matched literal.  `wordB` additionally requires a `\b`
boundary after the pattern. -/
def tryPats (pats : List (List Char)) (wordB : Bool) (cs : List Char) : Option (List Char) :=
  match pats with
  | [] => none
  | p :: ps =>
    if startsWithCI p cs && (!wordB || boundaryOk (cs.drop p.length)) then some (cs.drop p.length)
    else tryPats ps wordB cs

/-- Find the leftmost occurrence of any of the literal patterns (all
lowercase ASCII, matched case-insensitively): returns the part before the
match and the part after it.  This is the leftmost-match search a JavaScript
regex alternation of literals performs. -/
def splitPats (pats : List (List Char)) (wordB : Bool) : List Char → Option (List Char × List Char)
  | [] =>
    match tryPats pats wordB [] with
    | some post => some ([], post)
    | none => none
  | c :: rest =>
    match tryPats pats wordB (c :: rest) with
    | some post => some ([], post)
    | none =>
      match splitPats pats wordB rest with
      | some (a, b) => some (c :: a, b)
      | none => none

/-- One raw `<programme ...>...</programme>` span: the attribute text of the
opening tag and the inner body. -/
structure RawSpan where
  attrText : List Char
  inner : List Char
deriving DecidableEq

/-- The global scan `/<programme\b([^>]*)>([\s\S]*?)<\/programme>/gi` as
successive leftmost matches.  At each step: find the first `<programme` with
a word boundary; `[^>]*>` runs to the first following `'>'` (if no `'>'`
exists in the remainder, no later start position can complete a match
either, so the scan ends); the lazy body runs to the first following
`</programme>` (again, if none exists after this position none exists after
any later start, so the scan ends); the next iteration resumes after the
closing tag (`lastIndex`).  Fuel bounds the recursion; the input length is
always sufficient because each iteration consumes at least one character. -/
def progGo : Nat → List Char → List RawSpan
  | 0, _ => []
  | fuel + 1, cs =>
    match splitPats [['<', 'p', 'r', 'o', 'g', 'r', 'a', 'm', 'm', 'e']] true cs with
    | none => []
    | some (_, afterOpen) =>
      match splitAtGt afterOpen with
      | none => []
      | some (attrText, afterGt) =>
        match splitPats [['<', '/', 'p', 'r', 'o', 'g', 'r', 'a', 'm', 'm', 'e', '>']] false afterGt with
        | none => []
        | some (inner, afterClose) => ⟨attrText, inner⟩ :: progGo fuel afterClose

/-- All raw programme spans of a document, in document order. -/
def progSpans (cs : List Char) : List RawSpan := progGo cs.length cs

/-- Split at the first `'"'` (for the `[^"]*` attribute value). -/
def splitAtQuote : List Char → Option (List Char × List Char)
  | [] => none
  | c :: rest =>
    if c = '"' then some ([], rest)
    else
      match splitAtQuote rest with
      | some (a, b) => some (c :: a, b)
      | none => none

/-- Check for a literal `="` at the head; returns the suffix after it. -/
def eqQuote? : List Char → Option (List Char)
  | c1 :: c2 :: t => if c1 = '=' && c2 = '"' then some t else none
  | _ => none

/-- The attribute scan `[...attrText.matchAll(/([\w:\-]+)="([^"]*)"/g)]`.
At a name character, the greedy `+` takes the whole maximal name run; since
`'='` is not a name character the run cannot backtrack past a following
`'='`, so if `="` does not follow the run, every start position inside the
run fails too and scanning resumes after the run.  If `="` follows but no
closing quote exists later, the remainder contains no quote at all, so no
further match is possible and the scan ends.  Otherwise the pair is emitted
and scanning resumes after the closing quote. -/
def scanAttrsGo : Nat → List Char → List (String × String)
  | 0, _ => []
  | fuel + 1, l =>
    match l with
    | [] => []
    | c :: rest =>
      if isNameChar c then
        let name := c :: rest.takeWhile isNameChar
        let after := rest.dropWhile isNameChar
        match eqQuote? after with
        | some t =>
          match splitAtQuote t with
          | some (v, t2) => (String.mk name, String.mk v) :: scanAttrsGo fuel t2
          | none => []
        | none => scanAttrsGo fuel after
      else scanAttrsGo fuel rest

/-- All `name="value"` pairs of an attribute text, in document order. -/
def scanAttrs (cs : List Char) : List (String × String) := scanAttrsGo cs.length cs

/-- Lookup in which the LAST binding of a key wins: `Object.fromEntries`
overwrites earlier duplicate keys with later ones. -/
def lookupLast : List (String × String) → String → Option String
  | [], _ => none
  | (a, v) :: rest, k =>
    match lookupLast rest k with
    | some r => some r
    | none => if a = k then some v else none

/-- The first `<tag ...>body</tag>` body inside `inner`, for an element whose
opening tag starts with one of `openPats` (then `[^>]*>`) and whose closing
tag is one of `closePats`; `none` when the element is absent.  This is
`inner.match(/<tag[^>]*>([\s\S]*?)<\/tag>/i)`: if the first opening
occurrence cannot be completed (no `'>'`, or no closing tag afterwards), no
later occurrence can be completed either (its searches start later), so the
regex as a whole fails. -/
def extractBody (openPats closePats : List (List Char)) (inner : List Char) : Option (List Char) :=
  match splitPats openPats false inner with
  | none => none
  | some (_, afterOpen) =>
    match splitAtGt afterOpen with
    | none => none
    | some (_, afterGt) =>
      match splitPats closePats false afterGt with
      | none => none
      | some (body, _) => some body

def titleOpenPats : List (List Char) := [['<', 't', 'i', 't', 'l', 'e']]

def titleClosePats : List (List Char) := [['<', '/', 't', 'i', 't', 'l', 'e', '>']]

def subOpenPats : List (List Char) :=
  [['<', 's', 'u', 'b', '-', 't', 'i', 't', 'l', 'e'], ['<', 's', 'u', 'b', '_', 't', 'i', 't', 'l', 'e']]

def subClosePats : List (List Char) :=
  [['<', '/', 's', 'u', 'b', '-', 't', 'i', 't', 'l', 'e', '>'],
   ['<', '/', 's', 'u', 'b', '_', 't', 'i', 't', 'l', 'e', '>']]

/-- 1-based month length, leap-aware (specification-side helper naming the
entries of the scanner's month table). -/
def monthLenN (leap : Bool) (m : Nat) : Nat := (monthLens leap).getD (m - 1) 0

/-- The canonical two-digit zero-padded decimal rendering of `n < 100`
(specification-side form used to state what the formatter prints). -/
def digit2 (n : Nat) : List Char := [dc (n / 10), dc (n % 10)]

/-- The canonical four-digit zero-padded decimal rendering of `n < 10000`. -/
def digit4 (n : Nat) : List Char :=
  [dc (n / 1000), dc (n / 100 % 10), dc (n / 10 % 10), dc (n % 10)]

/-- One extracted programme record. -/
structure Programme where
  startRaw : String
  stopRaw : String
  start : String
  stop : String
  channel : String
  title : String
  subTitle : String
deriving DecidableEq

/-- The body of the `while` loop of `parseEPGProgrammes`: build one record
from one matched span.  `attrs.start ?? ""` (and `stop`, `channel`) becomes a
last-wins lookup with default `""`; a missing `<title>` yields `"Untitled"`;
a missing sub-title yields `""`; extracted bodies go through `stripTags` and
a final `.trim()`. -/
def mkProgramme (sp : RawSpan) : Programme :=
  let attrs := scanAttrs sp.attrText
  let startRaw := (lookupLast attrs "start").getD ""
  let stopRaw := (lookupLast attrs "stop").getD ""
  { startRaw := startRaw
    stopRaw := stopRaw
    start := formatTimeIST (some startRaw)
    stop := formatTimeIST (some stopRaw)
    channel := (lookupLast attrs "channel").getD ""
    title :=
      match extractBody titleOpenPats titleClosePats sp.inner with
      | some body => jsTrim (stripTags (String.mk body))
      | none => "Untitled"
    subTitle :=
      match extractBody subOpenPats subClosePats sp.inner with
      | some body => jsTrim (stripTags (String.mk body))
      | none => "" }

/-- Model of `parseEPGProgrammes(xml)`: one record per matched span, pushed
in document order. -/
def parseEPGProgrammes (xml : String) : List Programme := (progSpans xml.data).map mkProgramme

/-! ### ChannelGrouper (`groupByChannel`) -/

/-- The effective bucket key `p.channel || "unknown"` (the empty string is
the only falsy string). -/
def effChannel (p : Programme) : String := if p.channel = "" then "unknown" else p.channel

/-- Append `p` to the bucket of `ch`, creating the bucket at the end when
absent (JavaScript `Map` preserves insertion order of keys, and
`map.get(ch).push(p)` appends). -/
def pushBucket : List (String × List Programme) → String → Programme → List (String × List Programme)
  | [], ch, p => [(ch, [p])]
  | (k, l) :: rest, ch, p =>
    if k = ch then (k, l ++ [p]) :: rest else (k, l) :: pushBucket rest ch p

/-- Model of `groupByChannel(programmes)` as an insertion-ordered
association list (the key/value view of the JavaScript `Map`). -/
def groupByChannel (ps : List Programme) : List (String × List Programme) :=
  ps.foldl (fun m p => pushBucket m (effChannel p) p) []

/-- First-binding lookup in an association list (keys are unique in every
list built by `pushBucket`, so this is the `Map.get` view). -/
def lookupAssoc {α : Type} : List (String × α) → String → Option α
  | [], _ => none
  | (k, v) :: rest, key => if k = key then some v else lookupAssoc rest key

/-- Modelled from the spec: "one bucket per distinct channel id in order of
first appearance" — the deduplicated list of keys keeping first
occurrences.  Specification side of the key-order claim about
`groupByChannel`. -/
def firstKeys (l : List String) : List String :=
  l.foldl (fun acc x => if x ∈ acc then acc else acc ++ [x]) []

/-- A programme record with the given channel id and placeholder fields
(used for concrete grouping instances). -/
def testProg (ch : String) : Programme :=
  { startRaw := "", stopRaw := "", start := "", stop := "", channel := ch,
    title := "t", subTitle := "" }

/-! ### ImageResolver (`loadImageMapFile` / `attachImagesToProgrammes`) -/

/-- The fixed default placeholder image URL. -/
def DEFAULT_IMAGE : String :=
  "https://upload.wikimedia.org/wikipedia/commons/thumb/4/47/TV_icon_black.svg/512px-TV_icon_black.svg.png"

/-- `(x || "").trim().toLowerCase()` on a title (ASCII lowercasing; the
titles in play are ASCII). -/
def lcTrim (s : String) : String := String.mk ((trimJS s.data).map Char.toLower)

/-- One iteration of the map-building loop of `loadImageMapFile`: from a
`channelScheduleData` entry (title, boxCoverImage), skip it when the trimmed
lowercase title or the image is empty, and let the first occurrence of a
title win (`if (!map.has(title)) map.set(title, img)`). -/
def imInsert (m : List (String × String)) (it : String × String) : List (String × String) :=
  let t := lcTrim it.1
  let img := it.2
  if t = "" || img = "" then m
  else if (lookupAssoc m t).isSome then m
  else m ++ [(t, img)]

/-- The map built by `loadImageMapFile` from the file's schedule entries. -/
def buildImageMap (schedule : List (String × String)) : List (String × String) :=
  schedule.foldl imInsert []

/-- The per-programme body of `attachImagesToProgrammes`: look the trimmed
lowercase title up in the channel's title index (when one exists and the key
is nonempty); a missing or falsy result falls back to the default image. -/
def resolveImage (titleToImage : Option (List (String × String))) (title : String) : String :=
  let key := lcTrim title
  let img : Option String :=
    match titleToImage with
    | some m => if key = "" then none else lookupAssoc m key
    | none => none
  match img with
  | some v => if v = "" then DEFAULT_IMAGE else v
  | none => DEFAULT_IMAGE

/-! ## Lemmas about the timestamp scanner -/

theorem dropWhile_ws_append (w l : List Char) (hw : ∀ c ∈ w, isSpaceJS c = true) :
    List.dropWhile isSpaceJS (w ++ l) = List.dropWhile isSpaceJS l := by
  induction w with
  | nil => simp
  | cons c w ih =>
    simp only [List.cons_append, List.dropWhile]
    rw [hw c (by simp)]
    exact ih fun x hx => hw x (by simp [hx])

theorem dropWhile_ws_cons (c : Char) (l : List Char) (h : isSpaceJS c = false) :
    List.dropWhile isSpaceJS (c :: l) = c :: l := by
  simp [List.dropWhile, h]

theorem digit_ne_colon (c : Char) (h : c.isDigit = true) : ¬ c = ':' := by
  intro hc; subst hc; simp at h

theorem isSpaceJS_sign (c : Char) (h : c = '+' ∨ c = '-') : isSpaceJS c = false := by
  rcases h with h | h <;> subst h <;> decide

theorem isSpaceJS_z (c : Char) (h : c = 'Z' ∨ c = 'z') : isSpaceJS c = false := by
  rcases h with h | h <;> subst h <;> decide

theorem scanTz_zulu (zc : Char) (rest : List Char) (h : zc = 'Z' ∨ zc = 'z') :
    scanTz (zc :: rest) = some TzTok.zulu := by
  rcases h with h | h <;> subst h <;> rfl

theorem scanTz_numOff (sgn h1 h2 : Char) (colon : Bool) (m1 m2 : Char) (rest : List Char)
    (hs : sgn = '+' ∨ sgn = '-') (d1 : h1.isDigit = true) (d2 : h2.isDigit = true)
    (d3 : m1.isDigit = true) (d4 : m2.isDigit = true) :
    scanTz (sgn :: h1 :: h2 :: ((if colon then [':'] else []) ++ m1 :: m2 :: rest))
      = some (TzTok.numOff (sgn == '-') (digitVal2 h1 h2) (digitVal2 m1 m2)) := by
  have hm1 : ¬ m1 = ':' := digit_ne_colon m1 d3
  rcases hs with h | h <;> subst h <;> cases colon <;>
    simp [scanTz, scanTzMin, twoDigitVal?, d1, d2, d3, d4, hm1, digitVal2]

theorem parseChars_cons (y1 y2 y3 y4 o1 o2 a1 a2 b1 b2 c1 c2 e1 e2 : Char) (rest : List Char)
    (hd : allDigits14 y1 y2 y3 y4 o1 o2 a1 a2 b1 b2 c1 c2 e1 e2 = true) :
    parseChars (y1 :: y2 :: y3 :: y4 :: o1 :: o2 :: a1 :: a2 :: b1 :: b2 :: c1 :: c2 :: e1 :: e2 :: rest)
      = (match scanTz (rest.dropWhile isSpaceJS) with
        | some (TzTok.numOff neg hh mm) =>
            some (jsDateUTC (digitVal4 y1 y2 y3 y4) ((digitVal2 o1 o2 : Int) - 1)
                (digitVal2 a1 a2) (digitVal2 b1 b2) (digitVal2 c1 c2) (digitVal2 e1 e2)
              - (if neg then (-1 : Int) else 1) * ((hh : Int) * 60 + (mm : Int)) * 60000)
        | _ => some (jsDateUTC (digitVal4 y1 y2 y3 y4) ((digitVal2 o1 o2 : Int) - 1)
              (digitVal2 a1 a2) (digitVal2 b1 b2) (digitVal2 c1 c2) (digitVal2 e1 e2))) := by
  show (if allDigits14 y1 y2 y3 y4 o1 o2 a1 a2 b1 b2 c1 c2 e1 e2 then
      (match scanTz (rest.dropWhile isSpaceJS) with
        | some (TzTok.numOff neg hh mm) =>
            some (jsDateUTC (digitVal4 y1 y2 y3 y4) ((digitVal2 o1 o2 : Int) - 1)
                (digitVal2 a1 a2) (digitVal2 b1 b2) (digitVal2 c1 c2) (digitVal2 e1 e2)
              - (if neg then (-1 : Int) else 1) * ((hh : Int) * 60 + (mm : Int)) * 60000)
        | _ => some (jsDateUTC (digitVal4 y1 y2 y3 y4) ((digitVal2 o1 o2 : Int) - 1)
              (digitVal2 a1 a2) (digitVal2 b1 b2) (digitVal2 c1 c2) (digitVal2 e1 e2)))
    else none) = _
  rw [hd]
  simp

theorem string_ne_empty_of_trim_cons (s : String) (c : Char) (l : List Char)
    (h : trimJS s.data = c :: l) : ¬ s = "" := by
  intro he
  subst he
  simp [trimJS, trimHead, trimTail] at h

theorem parseXmltvTime_of_trim (s : String) (c : Char) (l : List Char)
    (h : trimJS s.data = c :: l) :
    parseXmltvTime (some s) = parseChars (c :: l) := by
  have hs := string_ne_empty_of_trim_cons s c l h
  simp [parseXmltvTime, hs, h]

theorem makeFullYear_large (y : Int) (h : 100 ≤ y) : makeFullYear y = y := by
  rw [makeFullYear, if_neg]; omega

theorem jsDateUTC_eq_spec (y mo d h mi s : Int) (hy : 100 ≤ y) :
    jsDateUTC y mo d h mi s = specUtcMillis y mo d h mi s := by
  rw [jsDateUTC, specUtcMillis, makeFullYear_large y hy]

/-! ## C5: error handling of Parse and FormatOrPassthrough -/

/-- C5: `parseXmltvTime` returns null on empty or null input;
`formatTimeIST` returns `""` for empty input and returns the raw input
unchanged for every input that fails to parse (for example `"garbage"`);
both functions are total, so a malformed timestamp never aborts
processing. -/
theorem parse_error_passthrough :
    parseXmltvTime (some "") = none ∧ parseXmltvTime none = none ∧
    formatTimeIST (some "") = "" ∧ formatTimeIST none = "" ∧
    formatTimeIST (some "garbage") = "garbage" ∧
    ∀ s : String, parseXmltvTime (some s) = none → formatTimeIST (some s) = s := by
  refine ⟨by decide, rfl, by decide, rfl, by decide, ?_⟩
  intro s h
  simp [formatTimeIST, h]

/-- Witness for C5 at a concrete unparsable input. -/
theorem parse_error_passthrough_witness :
    parseXmltvTime (some "xx") = none ∧ formatTimeIST (some "xx") = "xx" :=
  ⟨by decide, parse_error_passthrough.2.2.2.2.2 "xx" (by decide)⟩

/-! ## C10: totality on 14-digit prefixes and rollover normalization -/

/-- C10: every input whose trimmed form begins with 14 digits parses to a
non-null instant, whatever the component values; out-of-range calendar
components are normalized by arithmetic rollover into adjacent
months/days/years rather than rejected (witnessed on month 13, month 00,
day 32 and hour 25). -/
theorem parse_digits_total_rollover :
    (∀ (s : String) (y1 y2 y3 y4 o1 o2 a1 a2 b1 b2 c1 c2 e1 e2 : Char) (rest : List Char),
      trimJS s.data
        = y1 :: y2 :: y3 :: y4 :: o1 :: o2 :: a1 :: a2 :: b1 :: b2 :: c1 :: c2 :: e1 :: e2 :: rest →
      allDigits14 y1 y2 y3 y4 o1 o2 a1 a2 b1 b2 c1 c2 e1 e2 = true →
      (parseXmltvTime (some s)).isSome = true) ∧
    parseXmltvTime (some "20241301000000") = parseXmltvTime (some "20250101000000") ∧
    parseXmltvTime (some "20240001000000") = parseXmltvTime (some "20231201000000") ∧
    parseXmltvTime (some "20240132000000") = parseXmltvTime (some "20240201000000") ∧
    parseXmltvTime (some "20240101250000") = parseXmltvTime (some "20240102010000") := by
  refine ⟨?_, by decide, by decide, by decide, by decide⟩
  intro s y1 y2 y3 y4 o1 o2 a1 a2 b1 b2 c1 c2 e1 e2 rest htrim hd
  rw [parseXmltvTime_of_trim s _ _ htrim, parseChars_cons _ _ _ _ _ _ _ _ _ _ _ _ _ _ _ hd]
  cases hsc : scanTz (rest.dropWhile isSpaceJS) with
  | none => simp
  | some tk => cases tk <;> simp

/-- Witness for C10: out-of-range day-field input with trailing junk. -/
theorem parse_digits_total_rollover_witness :
    (parseXmltvTime (some " 20240199120000junk")).isSome = true :=
  parse_digits_total_rollover.1 " 20240199120000junk"
    '2' '0' '2' '4' '0' '1' '9' '9' '1' '2' '0' '0' '0' '0' ['j', 'u', 'n', 'k']
    (by decide) (by decide)

/-! ## C1: semantics of Parse (digits read as UTC, offset subtracted) -/

/-- C1 (amended: restricted to timestamps whose four-digit year field is at
least 0100 — `Date.UTC` reads years 00..99 as 1900..1999, see the
counterexample): for every input whose trimmed form begins with 14 digits
followed by optional whitespace and a numeric offset `±HHMM` or `±HH:MM`,
`parseXmltvTime` returns the instant obtained by reading the digits as UTC
wall-clock components and subtracting the offset in minutes
(`utc = localAsIfUTC - offsetMinutes`); when a literal `Z` (either case) or
no timezone designator follows the digits, the digits are read directly as
UTC components with no offset subtracted. -/
theorem parse_reads_digits_utc_minus_offset :
    (∀ (s : String) (y1 y2 y3 y4 o1 o2 a1 a2 b1 b2 c1 c2 e1 e2 : Char) (wsl : List Char)
        (sgn h1 h2 : Char) (colon : Bool) (m1 m2 : Char) (rest : List Char),
      trimJS s.data
        = y1 :: y2 :: y3 :: y4 :: o1 :: o2 :: a1 :: a2 :: b1 :: b2 :: c1 :: c2 :: e1 :: e2 ::
          (wsl ++ sgn :: h1 :: h2 :: ((if colon then [':'] else []) ++ m1 :: m2 :: rest)) →
      allDigits14 y1 y2 y3 y4 o1 o2 a1 a2 b1 b2 c1 c2 e1 e2 = true →
      (∀ c ∈ wsl, isSpaceJS c = true) →
      (sgn = '+' ∨ sgn = '-') →
      h1.isDigit = true → h2.isDigit = true → m1.isDigit = true → m2.isDigit = true →
      100 ≤ digitVal4 y1 y2 y3 y4 →
      parseXmltvTime (some s)
        = some (specUtcMillis (digitVal4 y1 y2 y3 y4) ((digitVal2 o1 o2 : Int) - 1)
              (digitVal2 a1 a2) (digitVal2 b1 b2) (digitVal2 c1 c2) (digitVal2 e1 e2)
            - (if sgn == '-' then (-1 : Int) else 1)
              * ((digitVal2 h1 h2 : Int) * 60 + (digitVal2 m1 m2 : Int)) * 60000)) ∧
    (∀ (s : String) (y1 y2 y3 y4 o1 o2 a1 a2 b1 b2 c1 c2 e1 e2 : Char) (wsl : List Char)
        (zc : Char) (rest : List Char),
      trimJS s.data
        = y1 :: y2 :: y3 :: y4 :: o1 :: o2 :: a1 :: a2 :: b1 :: b2 :: c1 :: c2 :: e1 :: e2 ::
          (wsl ++ zc :: rest) →
      allDigits14 y1 y2 y3 y4 o1 o2 a1 a2 b1 b2 c1 c2 e1 e2 = true →
      (∀ c ∈ wsl, isSpaceJS c = true) →
      (zc = 'Z' ∨ zc = 'z') →
      100 ≤ digitVal4 y1 y2 y3 y4 →
      parseXmltvTime (some s)
        = some (specUtcMillis (digitVal4 y1 y2 y3 y4) ((digitVal2 o1 o2 : Int) - 1)
            (digitVal2 a1 a2) (digitVal2 b1 b2) (digitVal2 c1 c2) (digitVal2 e1 e2))) ∧
    (∀ (s : String) (y1 y2 y3 y4 o1 o2 a1 a2 b1 b2 c1 c2 e1 e2 : Char) (rest : List Char),
      trimJS s.data
        = y1 :: y2 :: y3 :: y4 :: o1 :: o2 :: a1 :: a2 :: b1 :: b2 :: c1 :: c2 :: e1 :: e2 :: rest →
      allDigits14 y1 y2 y3 y4 o1 o2 a1 a2 b1 b2 c1 c2 e1 e2 = true →
      scanTz (rest.dropWhile isSpaceJS) = none →
      100 ≤ digitVal4 y1 y2 y3 y4 →
      parseXmltvTime (some s)
        = some (specUtcMillis (digitVal4 y1 y2 y3 y4) ((digitVal2 o1 o2 : Int) - 1)
            (digitVal2 a1 a2) (digitVal2 b1 b2) (digitVal2 c1 c2) (digitVal2 e1 e2))) := by
  refine ⟨?_, ?_, ?_⟩
  · intro s y1 y2 y3 y4 o1 o2 a1 a2 b1 b2 c1 c2 e1 e2 wsl sgn h1 h2 colon m1 m2 rest
      htrim hd hws hsgn hd1 hd2 hd3 hd4 hy
    rw [parseXmltvTime_of_trim s _ _ htrim, parseChars_cons _ _ _ _ _ _ _ _ _ _ _ _ _ _ _ hd,
      dropWhile_ws_append wsl _ hws, dropWhile_ws_cons _ _ (isSpaceJS_sign sgn hsgn),
      scanTz_numOff sgn h1 h2 colon m1 m2 rest hsgn hd1 hd2 hd3 hd4,
      jsDateUTC_eq_spec _ _ _ _ _ _ (by exact_mod_cast hy)]
  · intro s y1 y2 y3 y4 o1 o2 a1 a2 b1 b2 c1 c2 e1 e2 wsl zc rest htrim hd hws hz hy
    rw [parseXmltvTime_of_trim s _ _ htrim, parseChars_cons _ _ _ _ _ _ _ _ _ _ _ _ _ _ _ hd,
      dropWhile_ws_append wsl _ hws, dropWhile_ws_cons _ _ (isSpaceJS_z zc hz),
      scanTz_zulu zc rest hz, jsDateUTC_eq_spec _ _ _ _ _ _ (by exact_mod_cast hy)]
  · intro s y1 y2 y3 y4 o1 o2 a1 a2 b1 b2 c1 c2 e1 e2 rest htrim hd hnone hy
    rw [parseXmltvTime_of_trim s _ _ htrim, parseChars_cons _ _ _ _ _ _ _ _ _ _ _ _ _ _ _ hd,
      hnone, jsDateUTC_eq_spec _ _ _ _ _ _ (by exact_mod_cast hy)]

/-- Counterexample for C1 as stated: for year field `0000`, `Date.UTC`
substitutes 1900, so the parsed instant is the 1900 epoch instant and not
the spec-side reading of year 0 minus the (zero) offset. -/
theorem parse_reads_digits_counterexample :
    parseXmltvTime (some "00000101000000+0000") = some (-2208988800000) ∧
    specUtcMillis 0 0 1 0 0 0 - 0 = -62167219200000 ∧
    ¬ parseXmltvTime (some "00000101000000+0000") = some (specUtcMillis 0 0 1 0 0 0 - 0) := by
  refine ⟨by decide, by decide, by decide⟩

/-- Witness for C1 (amended) at a concrete offset timestamp. -/
theorem parse_reads_digits_utc_minus_offset_witness :
    parseXmltvTime (some "20240101120000+0530")
      = some (specUtcMillis 2024 0 1 12 0 0
          - (if ('+' : Char) == '-' then (-1 : Int) else 1) * ((5 : Int) * 60 + (30 : Int)) * 60000) := by
  have h := parse_reads_digits_utc_minus_offset.1 "20240101120000+0530"
    '2' '0' '2' '4' '0' '1' '0' '1' '1' '2' '0' '0' '0' '0' [] '+' '0' '5' false '3' '0' []
    (by decide) (by decide) (by intro c hc; cases hc) (Or.inl rfl)
    (by decide) (by decide) (by decide) (by decide) (by decide)
  exact h

/-! ## C4: changing only the offset shifts the instant by the offset delta -/

/-- C4: for a fixed 14-digit string and two explicit numeric offsets, the two
parsed UTC instants differ by exactly the difference of the offsets in
minutes (times 60000 ms). -/
theorem parse_offset_difference :
    ∀ (s1 s2 : String) (y1 y2 y3 y4 o1 o2 a1 a2 b1 b2 c1 c2 e1 e2 : Char)
      (wsl1 : List Char) (sgn1 h11 h12 : Char) (colon1 : Bool) (m11 m12 : Char) (rest1 : List Char)
      (wsl2 : List Char) (sgn2 h21 h22 : Char) (colon2 : Bool) (m21 m22 : Char) (rest2 : List Char),
      trimJS s1.data
        = y1 :: y2 :: y3 :: y4 :: o1 :: o2 :: a1 :: a2 :: b1 :: b2 :: c1 :: c2 :: e1 :: e2 ::
          (wsl1 ++ sgn1 :: h11 :: h12 :: ((if colon1 then [':'] else []) ++ m11 :: m12 :: rest1)) →
      trimJS s2.data
        = y1 :: y2 :: y3 :: y4 :: o1 :: o2 :: a1 :: a2 :: b1 :: b2 :: c1 :: c2 :: e1 :: e2 ::
          (wsl2 ++ sgn2 :: h21 :: h22 :: ((if colon2 then [':'] else []) ++ m21 :: m22 :: rest2)) →
      allDigits14 y1 y2 y3 y4 o1 o2 a1 a2 b1 b2 c1 c2 e1 e2 = true →
      (∀ c ∈ wsl1, isSpaceJS c = true) → (∀ c ∈ wsl2, isSpaceJS c = true) →
      (sgn1 = '+' ∨ sgn1 = '-') → (sgn2 = '+' ∨ sgn2 = '-') →
      h11.isDigit = true → h12.isDigit = true → m11.isDigit = true → m12.isDigit = true →
      h21.isDigit = true → h22.isDigit = true → m21.isDigit = true → m22.isDigit = true →
      ∃ u1 u2 : Int, parseXmltvTime (some s1) = some u1 ∧ parseXmltvTime (some s2) = some u2 ∧
        u1 - u2
          = ((if sgn2 == '-' then (-1 : Int) else 1)
                * ((digitVal2 h21 h22 : Int) * 60 + (digitVal2 m21 m22 : Int))
              - (if sgn1 == '-' then (-1 : Int) else 1)
                * ((digitVal2 h11 h12 : Int) * 60 + (digitVal2 m11 m12 : Int))) * 60000 := by
  intro s1 s2 y1 y2 y3 y4 o1 o2 a1 a2 b1 b2 c1 c2 e1 e2
    wsl1 sgn1 h11 h12 colon1 m11 m12 rest1 wsl2 sgn2 h21 h22 colon2 m21 m22 rest2
    htrim1 htrim2 hd hws1 hws2 hsgn1 hsgn2 q1 q2 q3 q4 q5 q6 q7 q8
  have e1h : parseXmltvTime (some s1)
      = some (jsDateUTC (digitVal4 y1 y2 y3 y4) ((digitVal2 o1 o2 : Int) - 1)
            (digitVal2 a1 a2) (digitVal2 b1 b2) (digitVal2 c1 c2) (digitVal2 e1 e2)
          - (if sgn1 == '-' then (-1 : Int) else 1)
            * ((digitVal2 h11 h12 : Int) * 60 + (digitVal2 m11 m12 : Int)) * 60000) := by
    rw [parseXmltvTime_of_trim s1 _ _ htrim1, parseChars_cons _ _ _ _ _ _ _ _ _ _ _ _ _ _ _ hd,
      dropWhile_ws_append wsl1 _ hws1, dropWhile_ws_cons _ _ (isSpaceJS_sign sgn1 hsgn1),
      scanTz_numOff sgn1 h11 h12 colon1 m11 m12 rest1 hsgn1 q1 q2 q3 q4]
  have e2h : parseXmltvTime (some s2)
      = some (jsDateUTC (digitVal4 y1 y2 y3 y4) ((digitVal2 o1 o2 : Int) - 1)
            (digitVal2 a1 a2) (digitVal2 b1 b2) (digitVal2 c1 c2) (digitVal2 e1 e2)
          - (if sgn2 == '-' then (-1 : Int) else 1)
            * ((digitVal2 h21 h22 : Int) * 60 + (digitVal2 m21 m22 : Int)) * 60000) := by
    rw [parseXmltvTime_of_trim s2 _ _ htrim2, parseChars_cons _ _ _ _ _ _ _ _ _ _ _ _ _ _ _ hd,
      dropWhile_ws_append wsl2 _ hws2, dropWhile_ws_cons _ _ (isSpaceJS_sign sgn2 hsgn2),
      scanTz_numOff sgn2 h21 h22 colon2 m21 m22 rest2 hsgn2 q5 q6 q7 q8]
  refine ⟨_, _, e1h, e2h, by ring⟩

/-- Witness for C4: the same digit string at `+0000` and `+01:00`. -/
theorem parse_offset_difference_witness :
    ∃ u1 u2 : Int, parseXmltvTime (some "20240101120000+0000") = some u1 ∧
      parseXmltvTime (some "20240101120000 +01:00") = some u2 ∧
      u1 - u2
        = ((if ('+' : Char) == '-' then (-1 : Int) else 1) * ((1 : Int) * 60 + (0 : Int))
            - (if ('+' : Char) == '-' then (-1 : Int) else 1) * ((0 : Int) * 60 + (0 : Int))) * 60000 := by
  have h := parse_offset_difference "20240101120000+0000" "20240101120000 +01:00"
    '2' '0' '2' '4' '0' '1' '0' '1' '1' '2' '0' '0' '0' '0'
    [] '+' '0' '0' false '0' '0' [] [' '] '+' '0' '1' true '0' '0' []
    (by decide) (by decide) (by decide)
    (by intro c hc; cases hc) (by intro c hc; simp at hc; subst hc; decide)
    (Or.inl rfl) (Or.inl rfl)
    (by decide) (by decide) (by decide) (by decide)
    (by decide) (by decide) (by decide) (by decide)
  exact h

/-! ## Calendar lemmas: `yearOfDay`/`monthOfDoy` invert `makeDay` -/

theorem dayFromYear_succ (y : Int) :
    dayFromYear (y + 1) = dayFromYear y + (daysInYear y : Int) := by
  rw [dayFromYear, dayFromYear, daysInYear, isLeapB]
  by_cases h4 : y % 4 = 0 <;> by_cases h100 : y % 100 = 0 <;> by_cases h400 : y % 400 = 0 <;>
    simp [h4, h100, h400] <;> omega

theorem dayFromYear_shift (e r : Int) :
    dayFromYear (400 * e + r) = 146097 * e + dayFromYear r := by
  rw [dayFromYear, dayFromYear]; omega

theorem isLeapB_shift (e r : Int) : isLeapB (400 * e + r) = isLeapB r := by
  rw [isLeapB, isLeapB, decide_eq_decide]
  omega

theorem yoeDays_eq_daysInYear (r : Nat) : yoeDays r = daysInYear (r : Int) := rfl

set_option maxRecDepth 4000 in
theorem yoeBase_400 : yoeBase 400 = 146097 := by decide

theorem dayFromYear_yoeBase : ∀ r : Nat, r < 400 → dayFromYear (r : Int) + 719528 = (yoeBase r : Int) := by
  intro r
  induction r with
  | zero => intro _; decide
  | succ n ih =>
    intro _
    have hn := ih (by omega)
    have hs : dayFromYear ((n : Int) + 1) = dayFromYear (n : Int) + (daysInYear (n : Int) : Int) :=
      dayFromYear_succ (n : Int)
    have hb : yoeBase (n + 1) = yoeBase n + yoeDays n := rfl
    have hy : yoeDays n = daysInYear (n : Int) := rfl
    push_cast at hs ⊢
    omega

theorem yoeBase_le (a b : Nat) (h : a ≤ b) : yoeBase a ≤ yoeBase b := by
  induction b with
  | zero =>
    have ha : a = 0 := by omega
    subst ha
    exact Nat.le_refl _
  | succ n ih =>
    have hb : yoeBase (n + 1) = yoeBase n + yoeDays n := rfl
    rcases Nat.lt_or_ge a (n + 1) with h' | h'
    · have := ih (by omega); omega
    · have : a = n + 1 := by omega
      subst this; omega

theorem stripYearsGo_spec (fuel : Nat) : ∀ y0 d0 : Nat, y0 + fuel = 400 →
    yoeBase y0 + d0 ≤ 146096 →
    (stripYearsGo fuel y0 d0).1 < 400 ∧
    (stripYearsGo fuel y0 d0).2 < yoeDays (stripYearsGo fuel y0 d0).1 ∧
    yoeBase (stripYearsGo fuel y0 d0).1 + (stripYearsGo fuel y0 d0).2 = yoeBase y0 + d0 := by
  induction fuel with
  | zero =>
    intro y0 d0 hf hb
    exfalso
    have h4 : y0 = 400 := by omega
    subst h4
    have := yoeBase_400
    omega
  | succ fuel ih =>
    intro y0 d0 hf hb
    simp only [stripYearsGo]
    by_cases h : d0 < yoeDays y0
    · rw [if_pos h]
      exact ⟨by omega, h, rfl⟩
    · rw [if_neg h]
      have hyb : yoeBase (y0 + 1) = yoeBase y0 + yoeDays y0 := rfl
      have hrec := ih (y0 + 1) (d0 - yoeDays y0) (by omega) (by omega)
      refine ⟨hrec.1, hrec.2.1, ?_⟩
      have := hrec.2.2
      omega

theorem yoe_decomp_unique (a da b db : Nat) (_ha : a < 400) (hb : b < 400)
    (hda : da < yoeDays a) (hdb : db < yoeDays b)
    (he : yoeBase a + da = yoeBase b + db) : a = b ∧ da = db := by
  rcases Nat.lt_trichotomy a b with h | h | h
  · exfalso
    have h1 : yoeBase (a + 1) ≤ yoeBase b := yoeBase_le _ _ (by omega)
    have h2 : yoeBase (a + 1) = yoeBase a + yoeDays a := rfl
    omega
  · subst h; omega
  · exfalso
    have h1 : yoeBase (b + 1) ≤ yoeBase a := yoeBase_le _ _ (by omega)
    have h2 : yoeBase (b + 1) = yoeBase b + yoeDays b := rfl
    omega

theorem month_table (leap : Bool) : ∀ m, m < 13 → ∀ d, d < 32 →
    (1 ≤ m ∧ 1 ≤ d ∧ d ≤ monthLenN leap m) →
    monthOfDoy leap (cumDaysN leap (m - 1) + d - 1) = (m, d) ∧
    cumDaysN leap (m - 1) + d - 1 < (if leap then 366 else 365) := by
  cases leap <;> decide

theorem monthLenN_le (leap : Bool) (m : Nat) (hm1 : 1 ≤ m) (hm2 : m ≤ 12) :
    monthLenN leap m ≤ 31 := by
  cases leap <;> interval_cases m <;> decide

theorem cumDaysN_lt_daysInYear (y : Int) (m d : Nat) (hm1 : 1 ≤ m) (hm2 : m ≤ 12)
    (hd1 : 1 ≤ d) (hd2 : d ≤ monthLenN (isLeapB y) m) :
    cumDaysN (isLeapB y) (m - 1) + d - 1 < daysInYear y := by
  have hd32 : d < 32 := by
    have := monthLenN_le (isLeapB y) m hm1 hm2
    omega
  have := (month_table (isLeapB y) m (by omega) d hd32 ⟨hm1, hd1, hd2⟩).2
  rw [daysInYear]
  rcases Bool.eq_false_or_eq_true (isLeapB y) with h | h <;> rw [h] at this ⊢ <;> simpa using this

theorem makeDay_valid (y : Int) (m d : Nat) (hm1 : 1 ≤ m) (hm2 : m ≤ 12) :
    makeDay y ((m : Int) - 1) d
      = dayFromYear y + (cumDaysN (isLeapB y) (m - 1) : Int) + ((d : Int) - 1) := by
  simp only [makeDay]
  have h1 : ((m : Int) - 1) / 12 = 0 := by omega
  have h2 : (((m : Int) - 1) % 12).toNat = m - 1 := by omega
  rw [h1, h2, add_zero]

/-- The Date getters read back exactly the components that were fed into the
spec-side instant, for any valid civil date and time of day. -/
theorem civilOfMillis_roundtrip (y : Int) (m d h mi s : Nat)
    (hm1 : 1 ≤ m) (hm2 : m ≤ 12) (hd1 : 1 ≤ d) (hd2 : d ≤ monthLenN (isLeapB y) m)
    (hh : h ≤ 23) (hmi : mi ≤ 59) (hs : s ≤ 59) :
    civilOfMillis (specUtcMillis y ((m : Int) - 1) d h mi s)
      = ⟨y, m, d, h, mi, s⟩ := by
  have hmdv := makeDay_valid y m d hm1 hm2
  have horig : specUtcMillis y ((m : Int) - 1) d h mi s
      = (dayFromYear y + (cumDaysN (isLeapB y) (m - 1) : Int) + ((d : Int) - 1)) * 86400000
        + (h : Int) * 3600000 + (mi : Int) * 60000 + (s : Int) * 1000 := by
    rw [specUtcMillis, hmdv]
  -- era decomposition of the year
  have hyer : y = 400 * (y / 400) + ((y % 400).toNat : Int) := by omega
  have hr400 : (y % 400).toNat < 400 := by omega
  have hdfy : dayFromYear y
      = 146097 * (y / 400) + (yoeBase (y % 400).toNat : Int) - 719528 := by
    have h1 : dayFromYear y = 146097 * (y / 400) + dayFromYear ((y % 400).toNat : Int) := by
      conv_lhs => rw [hyer]
      exact dayFromYear_shift (y / 400) ((y % 400).toNat : Int)
    have h2 := dayFromYear_yoeBase (y % 400).toNat hr400
    omega
  have hleap : isLeapB y = isLeapB ((y % 400).toNat : Int) := by
    conv_lhs => rw [hyer]
    exact isLeapB_shift (y / 400) ((y % 400).toNat : Int)
  -- day-of-year bound
  have hcumlt : cumDaysN (isLeapB y) (m - 1) + d - 1 < daysInYear y :=
    cumDaysN_lt_daysInYear y m d hm1 hm2 hd1 hd2
  have hdiy : daysInYear y = yoeDays (y % 400).toNat := by
    rw [yoeDays_eq_daysInYear, daysInYear, daysInYear, hleap]
  have hofflt : cumDaysN (isLeapB y) (m - 1) + d - 1 < yoeDays (y % 400).toNat := by
    omega
  -- day-of-era bound
  have hybr : yoeBase ((y % 400).toNat + 1) = yoeBase (y % 400).toNat + yoeDays (y % 400).toNat := rfl
  have hyble : yoeBase ((y % 400).toNat + 1) ≤ yoeBase 400 := yoeBase_le _ _ (by omega)
  have hy400 := yoeBase_400
  have hdoe : yoeBase (y % 400).toNat + (cumDaysN (isLeapB y) (m - 1) + d - 1) ≤ 146096 := by
    omega
  -- the day number recovered by Day(t)
  have hday : ((dayFromYear y + (cumDaysN (isLeapB y) (m - 1) : Int) + ((d : Int) - 1)) * 86400000
        + (h : Int) * 3600000 + (mi : Int) * 60000 + (s : Int) * 1000) / 86400000
      = dayFromYear y + (cumDaysN (isLeapB y) (m - 1) : Int) + ((d : Int) - 1) := by
    omega
  -- the year and day-of-year recovered by yearOfDay
  have hstrip := stripYearsGo_spec 400 0
    (yoeBase (y % 400).toNat + (cumDaysN (isLeapB y) (m - 1) + d - 1)) (by omega)
    (by have hyb0 : yoeBase 0 = 0 := rfl; omega)
  have huniq := yoe_decomp_unique
    (stripYearsGo 400 0 (yoeBase (y % 400).toNat + (cumDaysN (isLeapB y) (m - 1) + d - 1))).1
    (stripYearsGo 400 0 (yoeBase (y % 400).toNat + (cumDaysN (isLeapB y) (m - 1) + d - 1))).2
    (y % 400).toNat (cumDaysN (isLeapB y) (m - 1) + d - 1)
    hstrip.1 hr400 hstrip.2.1 hofflt
    (by have hyb0 : yoeBase 0 = 0 := rfl; have := hstrip.2.2; omega)
  have hyd : yearOfDay (dayFromYear y + (cumDaysN (isLeapB y) (m - 1) : Int) + ((d : Int) - 1))
      = (y, cumDaysN (isLeapB y) (m - 1) + d - 1) := by
    simp only [yearOfDay]
    have hera : (dayFromYear y + (cumDaysN (isLeapB y) (m - 1) : Int) + ((d : Int) - 1) + 719528)
        / 146097 = y / 400 := by omega
    have hmod : ((dayFromYear y + (cumDaysN (isLeapB y) (m - 1) : Int) + ((d : Int) - 1) + 719528)
        % 146097).toNat = yoeBase (y % 400).toNat + (cumDaysN (isLeapB y) (m - 1) + d - 1) := by
      omega
    rw [hera, hmod, huniq.1, huniq.2]
    have : (400 : Int) * (y / 400) + ((y % 400).toNat : Int) = y := by omega
    rw [this]
  -- the month and day recovered by monthOfDoy
  have hmonth : monthOfDoy (isLeapB y) (cumDaysN (isLeapB y) (m - 1) + d - 1) = (m, d) := by
    have hd32 : d < 32 := by
      have := monthLenN_le (isLeapB y) m hm1 hm2
      omega
    exact (month_table (isLeapB y) m (by omega) d hd32 ⟨hm1, hd1, hd2⟩).1
  -- assemble
  rw [horig]
  simp only [civilOfMillis]
  rw [hday, hyd]
  simp only []
  rw [hmonth]
  have hhour : (((dayFromYear y + (cumDaysN (isLeapB y) (m - 1) : Int) + ((d : Int) - 1)) * 86400000
      + (h : Int) * 3600000 + (mi : Int) * 60000 + (s : Int) * 1000) / 3600000 % 24).toNat = h := by
    omega
  have hmin : (((dayFromYear y + (cumDaysN (isLeapB y) (m - 1) : Int) + ((d : Int) - 1)) * 86400000
      + (h : Int) * 3600000 + (mi : Int) * 60000 + (s : Int) * 1000) / 60000 % 60).toNat = mi := by
    omega
  have hsec : (((dayFromYear y + (cumDaysN (isLeapB y) (m - 1) : Int) + ((d : Int) - 1)) * 86400000
      + (h : Int) * 3600000 + (mi : Int) * 60000 + (s : Int) * 1000) / 1000 % 60).toNat = s := by
    omega
  rw [hhour, hmin, hsec]

/-! ## Rendering lemmas -/

theorem dc_isDigit (k : Nat) (hk : k ≤ 9) : (dc k).isDigit = true := by
  interval_cases k <;> decide

theorem dv_dc (k : Nat) (hk : k ≤ 9) : dv (dc k) = k := by
  interval_cases k <;> decide

theorem natToDecGo_small (fuel n : Nat) (h : n < 10) : natToDecGo (fuel + 1) n = [dc n] := by
  simp only [natToDecGo]
  rw [if_pos h]

theorem natToDecGo_step (fuel n : Nat) (h : ¬ n < 10) :
    natToDecGo (fuel + 1) n = natToDecGo fuel (n / 10) ++ [dc (n % 10)] := by
  simp only [natToDecGo]
  rw [if_neg h]

theorem natToDec_two (n : Nat) (h : n ≤ 99) : pad2 (natToDec n) = digit2 n := by
  by_cases h10 : n < 10
  · have e : natToDec n = [dc n] := natToDecGo_small 29 n h10
    have h0 : n / 10 = 0 := by omega
    have h1 : n % 10 = n := by omega
    rw [e, pad2, digit2, h0, h1]
    rfl
  · have e : natToDec n = natToDecGo 29 (n / 10) ++ [dc (n % 10)] := natToDecGo_step 29 n h10
    have e2 : natToDecGo 29 (n / 10) = [dc (n / 10)] := natToDecGo_small 28 (n / 10) (by omega)
    rw [e, e2, pad2, digit2]
    rfl

theorem natToDec_four (n : Nat) (h1 : 1000 ≤ n) (h2 : n ≤ 9999) : natToDec n = digit4 n := by
  have e1 : natToDec n = natToDecGo 29 (n / 10) ++ [dc (n % 10)] := natToDecGo_step 29 n (by omega)
  have e2 : natToDecGo 29 (n / 10) = natToDecGo 28 (n / 10 / 10) ++ [dc (n / 10 % 10)] :=
    natToDecGo_step 28 (n / 10) (by omega)
  have e3 : natToDecGo 28 (n / 10 / 10) = natToDecGo 27 (n / 10 / 10 / 10) ++ [dc (n / 10 / 10 % 10)] :=
    natToDecGo_step 27 (n / 10 / 10) (by omega)
  have e4 : natToDecGo 27 (n / 10 / 10 / 10) = [dc (n / 10 / 10 / 10)] :=
    natToDecGo_small 26 (n / 10 / 10 / 10) (by omega)
  have q2 : n / 10 / 10 / 10 = n / 1000 := by omega
  have q3 : n / 10 / 10 % 10 = n / 100 % 10 := by omega
  rw [e1, e2, e3, e4, q2, q3, digit4]
  rfl

theorem intToDec_ofNat (n : Nat) : intToDec (n : Int) = natToDec n := by
  rw [intToDec, if_neg (by omega)]
  simp

/-! ## Wall-clock carry lemmas for the +5:30 shift -/

theorem cumDaysN_step (leap : Bool) : ∀ m, m < 12 → 1 ≤ m →
    cumDaysN leap m = cumDaysN leap (m - 1) + monthLenN leap m := by
  cases leap <;> decide

theorem monthLenN_pos (leap : Bool) : ∀ m, m < 13 → 1 ≤ m → 1 ≤ monthLenN leap m := by
  cases leap <;> decide

theorem cumDaysN_last (leap : Bool) :
    cumDaysN leap 11 + monthLenN leap 12 = (if leap then 366 else 365) := by
  cases leap <;> decide

/-- Incrementing a valid civil date by one day. -/
theorem makeDay_succ_day (y : Int) (m d : Nat) (hm1 : 1 ≤ m) (hm2 : m ≤ 12)
    (hd1 : 1 ≤ d) (hd2 : d ≤ monthLenN (isLeapB y) m) :
    ∃ (y' : Int) (m' d' : Nat), 1 ≤ m' ∧ m' ≤ 12 ∧ 1 ≤ d' ∧ d' ≤ monthLenN (isLeapB y') m' ∧
      (y' = y ∨ y' = y + 1) ∧
      makeDay y' ((m' : Int) - 1) d' = makeDay y ((m : Int) - 1) d + 1 := by
  by_cases hdlt : d < monthLenN (isLeapB y) m
  · refine ⟨y, m, d + 1, hm1, hm2, by omega, by omega, Or.inl rfl, ?_⟩
    rw [makeDay_valid y m (d + 1) hm1 hm2, makeDay_valid y m d hm1 hm2]
    push_cast
    ring
  · by_cases hm12 : m < 12
    · refine ⟨y, m + 1, 1, by omega, by omega, by omega,
        monthLenN_pos (isLeapB y) (m + 1) (by omega) (by omega), Or.inl rfl, ?_⟩
      rw [makeDay_valid y (m + 1) 1 (by omega) (by omega), makeDay_valid y m d hm1 hm2]
      have hstep := cumDaysN_step (isLeapB y) m hm12 hm1
      have hmm : m + 1 - 1 = m := by omega
      rw [hmm, hstep]
      have hd : d = monthLenN (isLeapB y) m := by omega
      subst hd
      push_cast
      ring
    · have hm12e : m = 12 := by omega
      subst hm12e
      refine ⟨y + 1, 1, 1, by omega, by omega, by omega,
        monthLenN_pos (isLeapB (y + 1)) 1 (by omega) (by omega), Or.inr rfl, ?_⟩
      rw [makeDay_valid (y + 1) 1 1 (by omega) (by omega), makeDay_valid y 12 d (by omega) (by omega)]
      have hsu := dayFromYear_succ y
      have hlast := cumDaysN_last (isLeapB y)
      have hd : d = monthLenN (isLeapB y) 12 := by omega
      subst hd
      have hdiy : daysInYear y = (if isLeapB y then 366 else 365) := rfl
      have hc0 : cumDaysN (isLeapB (y + 1)) 0 = 0 := by
        rcases Bool.eq_false_or_eq_true (isLeapB (y + 1)) with hb | hb <;> rw [hb] <;> decide
      rw [hc0]
      have h11 : (12 : Nat) - 1 = 11 := rfl
      rw [h11]
      rcases Bool.eq_false_or_eq_true (isLeapB y) with hb | hb <;>
        simp only [hb, if_true, if_false, Bool.false_eq_true] at hlast hdiy ⊢ <;> omega

/-- Adding the fixed IST offset of 5 hours 30 minutes to a valid civil
wall-clock reading yields another valid civil wall-clock reading (possibly on
the next day), with the same seconds field. -/
theorem add_5h30_civil (y : Int) (m d h mi s : Nat)
    (hm1 : 1 ≤ m) (hm2 : m ≤ 12) (hd1 : 1 ≤ d) (hd2 : d ≤ monthLenN (isLeapB y) m)
    (hh : h ≤ 23) (hmi : mi ≤ 59) (_hs : s ≤ 59) :
    ∃ (y' : Int) (m' d' h' mi' : Nat),
      1 ≤ m' ∧ m' ≤ 12 ∧ 1 ≤ d' ∧ d' ≤ monthLenN (isLeapB y') m' ∧ h' ≤ 23 ∧ mi' ≤ 59 ∧
      (y' = y ∨ y' = y + 1) ∧
      specUtcMillis y' ((m' : Int) - 1) d' h' mi' s
        = specUtcMillis y ((m : Int) - 1) d h mi s + 19800000 := by
  by_cases hcar : h * 60 + mi + 330 < 1440
  · -- stays on the same day
    refine ⟨y, m, d, (h * 60 + mi + 330) / 60, (h * 60 + mi + 330) % 60,
      hm1, hm2, hd1, hd2, by omega, by omega, Or.inl rfl, ?_⟩
    rw [specUtcMillis, specUtcMillis]
    omega
  · -- rolls over to the next day
    obtain ⟨y', m', d', q1, q2, q3, q4, q5, q6⟩ := makeDay_succ_day y m d hm1 hm2 hd1 hd2
    refine ⟨y', m', d', (h * 60 + mi + 330 - 1440) / 60, (h * 60 + mi + 330 - 1440) % 60,
      q1, q2, q3, q4, by omega, by omega, q5, ?_⟩
    rw [specUtcMillis, specUtcMillis, q6]
    omega

theorem formatTimeIST_civil (ts : Option String) (u yv : Int) (mv dvv hv miv sv : Nat)
    (h : parseXmltvTime ts = some u)
    (hc : civilOfMillis (u + 19800000) = ⟨yv, mv, dvv, hv, miv, sv⟩) :
    formatTimeIST ts = String.mk (intToDec yv ++ '-' :: pad2 (natToDec mv)
      ++ '-' :: pad2 (natToDec dvv) ++ ' ' :: pad2 (natToDec hv)
      ++ ':' :: pad2 (natToDec miv) ++ ':' :: pad2 (natToDec sv)
      ++ [' ', 'I', 'S', 'T']) := by
  unfold formatTimeIST
  rw [h]
  show String.mk (intToDec (civilOfMillis (u + 19800000)).year
      ++ '-' :: pad2 (natToDec (civilOfMillis (u + 19800000)).month)
      ++ '-' :: pad2 (natToDec (civilOfMillis (u + 19800000)).day)
      ++ ' ' :: pad2 (natToDec (civilOfMillis (u + 19800000)).hour)
      ++ ':' :: pad2 (natToDec (civilOfMillis (u + 19800000)).minute)
      ++ ':' :: pad2 (natToDec (civilOfMillis (u + 19800000)).second)
      ++ [' ', 'I', 'S', 'T']) = _
  rw [hc]

/-! ## C3: Parse then Format shifts the wall clock by exactly +5:30 -/

/-- C3 (amended: restricted to valid timestamps whose year field lies
between 1000 and 9998 — the source does not zero-pad the year, so smaller
years render with fewer than four digits, the last 5:30 of year 9999 would
render with five, and years 00..99 are additionally remapped by `Date.UTC`;
see the counterexample): for every valid 14-digit timestamp with a `Z`
suffix, Parse followed by Format yields the display string
`YYYY-MM-DD HH:MM:SS IST` with zero-padded two/four-digit fields, whose
wall-clock value is exactly 5 hours 30 minutes ahead of the UTC wall-clock
value encoded in the 14 digits (the seconds field is unchanged). -/
theorem parse_format_shift_ist :
    ∀ (s : String) (y1 y2 y3 y4 o1 o2 a1 a2 b1 b2 c1 c2 e1 e2 : Char) (wsl : List Char)
      (zc : Char) (rest : List Char),
    trimJS s.data
      = y1 :: y2 :: y3 :: y4 :: o1 :: o2 :: a1 :: a2 :: b1 :: b2 :: c1 :: c2 :: e1 :: e2 ::
        (wsl ++ zc :: rest) →
    allDigits14 y1 y2 y3 y4 o1 o2 a1 a2 b1 b2 c1 c2 e1 e2 = true →
    (∀ c ∈ wsl, isSpaceJS c = true) →
    (zc = 'Z' ∨ zc = 'z') →
    1000 ≤ digitVal4 y1 y2 y3 y4 → digitVal4 y1 y2 y3 y4 ≤ 9998 →
    1 ≤ digitVal2 o1 o2 → digitVal2 o1 o2 ≤ 12 →
    1 ≤ digitVal2 a1 a2 →
    digitVal2 a1 a2 ≤ monthLenN (isLeapB (digitVal4 y1 y2 y3 y4 : Int)) (digitVal2 o1 o2) →
    digitVal2 b1 b2 ≤ 23 → digitVal2 c1 c2 ≤ 59 → digitVal2 e1 e2 ≤ 59 →
    ∃ (y' m' d' h' mi' : Nat),
      1000 ≤ y' ∧ y' ≤ 9999 ∧ 1 ≤ m' ∧ m' ≤ 12 ∧ 1 ≤ d' ∧ d' ≤ 31 ∧ h' ≤ 23 ∧ mi' ≤ 59 ∧
      formatTimeIST (some s)
        = String.mk (digit4 y' ++ '-' :: digit2 m' ++ '-' :: digit2 d' ++ ' ' :: digit2 h'
            ++ ':' :: digit2 mi' ++ ':' :: digit2 (digitVal2 e1 e2) ++ [' ', 'I', 'S', 'T']) ∧
      specUtcMillis (y' : Int) ((m' : Int) - 1) d' h' mi' (digitVal2 e1 e2)
        = specUtcMillis (digitVal4 y1 y2 y3 y4 : Int) ((digitVal2 o1 o2 : Int) - 1)
            (digitVal2 a1 a2) (digitVal2 b1 b2) (digitVal2 c1 c2) (digitVal2 e1 e2)
          + 19800000 := by
  intro s y1 y2 y3 y4 o1 o2 a1 a2 b1 b2 c1 c2 e1 e2 wsl zc rest
    htrim hdig hws hz hy1 hy2 ho1 ho2 ha1 ha2 hb hc he
  have hparse : parseXmltvTime (some s)
      = some (specUtcMillis (digitVal4 y1 y2 y3 y4 : Int) ((digitVal2 o1 o2 : Int) - 1)
          (digitVal2 a1 a2) (digitVal2 b1 b2) (digitVal2 c1 c2) (digitVal2 e1 e2)) := by
    rw [parseXmltvTime_of_trim s _ _ htrim, parseChars_cons _ _ _ _ _ _ _ _ _ _ _ _ _ _ _ hdig,
      dropWhile_ws_append wsl _ hws, dropWhile_ws_cons _ _ (isSpaceJS_z zc hz),
      scanTz_zulu zc rest hz,
      jsDateUTC_eq_spec _ _ _ _ _ _ (by exact_mod_cast (by omega : 100 ≤ digitVal4 y1 y2 y3 y4))]
  obtain ⟨yi, m', d', h', mi', hm1', hm2', hd1', hd2', hh', hmi', hyy, heq⟩ :=
    add_5h30_civil (digitVal4 y1 y2 y3 y4 : Int) (digitVal2 o1 o2) (digitVal2 a1 a2)
      (digitVal2 b1 b2) (digitVal2 c1 c2) (digitVal2 e1 e2) ho1 ho2 ha1 ha2 hb hc he
  have hybounds : 1000 ≤ yi ∧ yi ≤ 9999 := by
    rcases hyy with hcase | hcase <;> subst hcase <;> constructor <;> omega
  have hycast : ((yi.toNat : Nat) : Int) = yi := by omega
  refine ⟨yi.toNat, m', d', h', mi', by omega, by omega, hm1', hm2', hd1', ?_, hh', hmi', ?_, ?_⟩
  · have := monthLenN_le (isLeapB yi) m' hm1' hm2'
    omega
  · have hfmt := formatTimeIST_civil (some s) _ yi m' d' h' mi' (digitVal2 e1 e2) hparse
      (by rw [show specUtcMillis (digitVal4 y1 y2 y3 y4 : Int) ((digitVal2 o1 o2 : Int) - 1)
              (digitVal2 a1 a2) (digitVal2 b1 b2) (digitVal2 c1 c2) (digitVal2 e1 e2) + 19800000
            = specUtcMillis yi ((m' : Int) - 1) d' h' mi' (digitVal2 e1 e2) from heq.symm]
          exact civilOfMillis_roundtrip yi m' d' h' mi' (digitVal2 e1 e2)
            hm1' hm2' hd1' hd2' hh' hmi' he)
    rw [hfmt]
    rw [show intToDec yi = natToDec yi.toNat by
      conv_lhs => rw [← hycast]
      exact intToDec_ofNat yi.toNat]
    rw [natToDec_four yi.toNat (by omega) (by omega)]
    rw [natToDec_two m' (by omega), natToDec_two d' (by
        have := monthLenN_le (isLeapB yi) m' hm1' hm2'
        omega),
      natToDec_two h' (by omega), natToDec_two mi' (by omega), natToDec_two (digitVal2 e1 e2) (by omega)]
  · rw [hycast]
    exact heq

/-- Counterexample for C3 as stated: the valid Z-suffixed timestamp with
year field 0100 formats with a three-digit year (the source never pads the
year), so the display is not of the required zero-padded four-digit form. -/
theorem parse_format_shift_counterexample :
    formatTimeIST (some "01000101000000Z") = "100-01-01 05:30:00 IST" ∧
    ¬ formatTimeIST (some "01000101000000Z") = "0100-01-01 05:30:00 IST" :=
  ⟨by decide, by decide⟩

/-- Witness for C3 (amended) at a concrete timestamp. -/
theorem parse_format_shift_ist_witness :
    ∃ (y' m' d' h' mi' : Nat),
      1000 ≤ y' ∧ y' ≤ 9999 ∧ 1 ≤ m' ∧ m' ≤ 12 ∧ 1 ≤ d' ∧ d' ≤ 31 ∧ h' ≤ 23 ∧ mi' ≤ 59 ∧
      formatTimeIST (some "20240101120000Z")
        = String.mk (digit4 y' ++ '-' :: digit2 m' ++ '-' :: digit2 d' ++ ' ' :: digit2 h'
            ++ ':' :: digit2 mi' ++ ':' :: digit2 (digitVal2 '0' '0') ++ [' ', 'I', 'S', 'T']) ∧
      specUtcMillis (y' : Int) ((m' : Int) - 1) d' h' mi' (digitVal2 '0' '0')
        = specUtcMillis (digitVal4 '2' '0' '2' '4' : Int) ((digitVal2 '0' '1' : Int) - 1)
            (digitVal2 '0' '1') (digitVal2 '1' '2') (digitVal2 '0' '0') (digitVal2 '0' '0')
          + 19800000 :=
  parse_format_shift_ist "20240101120000Z" '2' '0' '2' '4' '0' '1' '0' '1' '1' '2' '0' '0' '0' '0'
    [] 'Z' [] (by decide) (by decide) (by intro c hc; cases hc) (Or.inl rfl)
    (by decide) (by decide) (by decide) (by decide) (by decide) (by decide)
    (by decide) (by decide) (by decide)

/-! ## C6: idempotence of `stripTags` -/

theorem splitAtGt_eq (cs : List Char) : ∀ pre post : List Char,
    splitAtGt cs = some (pre, post) → cs = pre ++ '>' :: post := by
  induction cs with
  | nil => intro pre post h; simp [splitAtGt] at h
  | cons c rest ih =>
    intro pre post h
    rw [splitAtGt] at h
    by_cases hc : c = '>'
    · rw [if_pos hc] at h
      simp only [Option.some.injEq, Prod.mk.injEq] at h
      obtain ⟨h1, h2⟩ := h
      subst h1; subst h2; subst hc
      rfl
    · rw [if_neg hc] at h
      cases hrec : splitAtGt rest with
      | none => rw [hrec] at h; simp at h
      | some p =>
        cases p with
        | mk a b =>
          rw [hrec] at h
          simp only [Option.some.injEq, Prod.mk.injEq] at h
          obtain ⟨h1, h2⟩ := h
          subst h1; subst h2
          rw [ih a b hrec]
          rfl

theorem splitAtGt_none (cs : List Char) (h : '>' ∉ cs) : splitAtGt cs = none := by
  induction cs with
  | nil => rfl
  | cons c rest ih =>
    rw [splitAtGt, if_neg (by intro hc; exact h (by simp [hc]))]
    rw [ih (by intro hm; exact h (by simp [hm]))]

theorem splitAtGt_isSome (cs : List Char) (h : '>' ∈ cs) : ¬ splitAtGt cs = none := by
  induction cs with
  | nil => simp at h
  | cons c rest ih =>
    rw [splitAtGt]
    by_cases hc : c = '>'
    · rw [if_pos hc]; simp
    · rw [if_neg hc]
      have hmt : '>' ∈ rest := by
        rcases List.mem_cons.mp h with h1 | h1
        · exact absurd h1.symm hc
        · exact h1
      cases hsp : splitAtGt rest with
      | none => exact absurd hsp (ih hmt)
      | some p => cases p; simp

theorem isSpaceJS_ne_lt (c : Char) (h : isSpaceJS c = true) : ¬ c = '<' := by
  intro hc; subst hc; exact absurd h (by decide)

theorem isSpaceJS_ne_gt (c : Char) (h : isSpaceJS c = true) : ¬ c = '>' := by
  intro hc; subst hc; exact absurd h (by decide)

theorem removeTagsGo_lt_some (fuel : Nat) (rest inside tail : List Char)
    (hsp : splitAtGt rest = some (inside, tail)) :
    removeTagsGo (fuel + 1) ('<' :: rest)
      = if inside = [] then '<' :: removeTagsGo fuel rest else removeTagsGo fuel tail := by
  rw [removeTagsGo, if_pos rfl, hsp]

theorem removeTagsGo_lt_none (fuel : Nat) (rest : List Char) (hsp : splitAtGt rest = none) :
    removeTagsGo (fuel + 1) ('<' :: rest) = '<' :: removeTagsGo fuel rest := by
  rw [removeTagsGo, if_pos rfl, hsp]

theorem removeTagsGo_cons_ne (fuel : Nat) (c : Char) (rest : List Char) (hc : ¬ c = '<') :
    removeTagsGo (fuel + 1) (c :: rest) = c :: removeTagsGo fuel rest := by
  rw [removeTagsGo, if_neg hc]

theorem removeTagsGo_sublist (fuel : Nat) : ∀ l : List Char,
    List.Sublist (removeTagsGo fuel l) l := by
  induction fuel with
  | zero => intro l; exact List.Sublist.refl l
  | succ fuel ih =>
    intro l
    cases l with
    | nil => simp [removeTagsGo]
    | cons c rest =>
      by_cases hc : c = '<'
      · subst hc
        cases hsp : splitAtGt rest with
        | none =>
          rw [removeTagsGo_lt_none fuel rest hsp]
          exact List.Sublist.cons₂ '<' (ih rest)
        | some p =>
          cases p with
          | mk inside tail =>
            rw [removeTagsGo_lt_some fuel rest inside tail hsp]
            by_cases hin : inside = []
            · rw [if_pos hin]
              exact List.Sublist.cons₂ '<' (ih rest)
            · rw [if_neg hin]
              have hdec := splitAtGt_eq rest inside tail hsp
              have htail : List.Sublist tail rest := by
                rw [hdec]
                exact (List.sublist_cons_self '>' tail).trans
                  (List.sublist_append_right inside ('>' :: tail))
              exact List.Sublist.cons '<' ((ih tail).trans htail)
      · rw [removeTagsGo_cons_ne fuel c rest hc]
        exact List.Sublist.cons₂ c (ih rest)

theorem noTag_cons_ne (c : Char) (l : List Char) (hc : ¬ c = '<') :
    NoTag (c :: l) ↔ NoTag l := by
  rw [NoTag, if_neg hc]

theorem noTag_of_no_gt (l : List Char) (h : '>' ∉ l) : NoTag l := by
  induction l with
  | nil => trivial
  | cons c rest ih =>
    have hr : '>' ∉ rest := by intro hm; exact h (by simp [hm])
    by_cases hc : c = '<'
    · rw [NoTag, if_pos hc, if_neg hr]
      trivial
    · rw [NoTag, if_neg hc]
      exact ih hr

theorem noTag_tail (c : Char) (l : List Char) (h : NoTag (c :: l)) : NoTag l := by
  by_cases hc : c = '<'
  · rw [NoTag, if_pos hc] at h
    by_cases hm : '>' ∈ l
    · rw [if_pos hm] at h
      exact h.2
    · exact noTag_of_no_gt l hm
  · rw [NoTag, if_neg hc] at h
    exact h

theorem removeTagsGo_noTag (fuel : Nat) : ∀ l : List Char, l.length ≤ fuel →
    NoTag (removeTagsGo fuel l) := by
  induction fuel with
  | zero =>
    intro l hl
    have hnil : l = [] := by
      cases l with
      | nil => rfl
      | cons c rest => simp at hl
    subst hnil
    trivial
  | succ fuel ih =>
    intro l hl
    cases l with
    | nil => trivial
    | cons c rest =>
      simp only [List.length_cons] at hl
      by_cases hc : c = '<'
      · subst hc
        cases hsp : splitAtGt rest with
        | none =>
          rw [removeTagsGo_lt_none fuel rest hsp]
          have hng : '>' ∉ rest := by
            intro hm
            exact splitAtGt_isSome rest hm hsp
          have hng2 : '>' ∉ removeTagsGo fuel rest := by
            intro hm
            exact hng ((removeTagsGo_sublist fuel rest).mem hm)
          rw [NoTag, if_pos rfl, if_neg hng2]
          trivial
        | some p =>
          cases p with
          | mk inside tail =>
            rw [removeTagsGo_lt_some fuel rest inside tail hsp]
            have hdec := splitAtGt_eq rest inside tail hsp
            by_cases hin : inside = []
            · rw [if_pos hin]
              subst hin
              simp only [List.nil_append] at hdec
              have hrest : NoTag (removeTagsGo fuel rest) := ih rest (by omega)
              rw [NoTag, if_pos rfl]
              cases fuel with
              | zero =>
                rw [hdec] at hl
                simp at hl
              | succ fuel2 =>
                subst hdec
                rw [removeTagsGo_cons_ne fuel2 '>' tail (by decide)] at hrest ⊢
                rw [if_pos (by simp : '>' ∈ '>' :: removeTagsGo fuel2 tail)]
                refine ⟨rfl, ?_⟩
                rw [NoTag, if_neg (by decide : ¬ ('>' : Char) = '<')] at hrest
                rw [NoTag, if_neg (by decide : ¬ ('>' : Char) = '<')]
                exact hrest
            · rw [if_neg hin]
              apply ih tail
              have hlen : rest.length = inside.length + 1 + tail.length := by
                rw [hdec]; simp; omega
              omega
      · rw [removeTagsGo_cons_ne fuel c rest hc]
        have := ih rest (by omega)
        rw [NoTag, if_neg hc]
        exact this

theorem removeTagsGo_fix (fuel : Nat) : ∀ l : List Char, NoTag l → removeTagsGo fuel l = l := by
  induction fuel with
  | zero => intro l _; rfl
  | succ fuel ih =>
    intro l h
    cases l with
    | nil => rfl
    | cons c rest =>
      by_cases hc : c = '<'
      · subst hc
        rw [NoTag, if_pos rfl] at h
        by_cases hm : '>' ∈ rest
        · rw [if_pos hm] at h
          obtain ⟨hsg, hnt⟩ := h
          cases rest with
          | nil => exact absurd hsg (by rw [StartsGt]; exact not_false)
          | cons r0 t =>
            rw [StartsGt] at hsg
            subst hsg
            rw [removeTagsGo_lt_some fuel ('>' :: t) [] t rfl, if_pos rfl, ih ('>' :: t) hnt]
        · rw [removeTagsGo_lt_none fuel rest (splitAtGt_none rest hm),
            ih rest (noTag_of_no_gt rest hm)]
      · rw [removeTagsGo_cons_ne fuel c rest hc, ih rest (noTag_tail c rest h)]

theorem collapseGo_ws_t (c : Char) (rest : List Char) (h : isSpaceJS c = true) :
    collapseGo true (c :: rest) = collapseGo true rest := by
  rw [collapseGo, if_pos h, if_pos rfl]

theorem collapseGo_ws_f (c : Char) (rest : List Char) (h : isSpaceJS c = true) :
    collapseGo false (c :: rest) = ' ' :: collapseGo true rest := by
  rw [collapseGo, if_pos h, if_neg (by simp)]

theorem collapseGo_nws (b : Bool) (c : Char) (rest : List Char) (h : isSpaceJS c = false) :
    collapseGo b (c :: rest) = c :: collapseGo false rest := by
  rw [collapseGo, if_neg (by simp [h])]

theorem collapseGo_mem (l : List Char) : ∀ (b : Bool) (x : Char),
    x ∈ collapseGo b l → x ∈ l ∨ x = ' ' := by
  induction l with
  | nil => intro b x hx; simp [collapseGo] at hx
  | cons c rest ih =>
    intro b x hx
    by_cases hws : isSpaceJS c = true
    · cases b with
      | true =>
        rw [collapseGo_ws_t c rest hws] at hx
        rcases ih true x hx with h | h
        · exact Or.inl (by simp [h])
        · exact Or.inr h
      | false =>
        rw [collapseGo_ws_f c rest hws] at hx
        rcases List.mem_cons.mp hx with h | h
        · exact Or.inr h
        · rcases ih true x h with h2 | h2
          · exact Or.inl (by simp [h2])
          · exact Or.inr h2
    · rw [collapseGo_nws b c rest (by simpa using hws)] at hx
      rcases List.mem_cons.mp hx with h | h
      · exact Or.inl (by simp [h])
      · rcases ih false x h with h2 | h2
        · exact Or.inl (by simp [h2])
        · exact Or.inr h2

theorem noTag_collapse (l : List Char) : ∀ b : Bool, NoTag l → NoTag (collapseGo b l) := by
  induction l with
  | nil => intro b _; cases b <;> trivial
  | cons c rest ih =>
    intro b h
    by_cases hws : isSpaceJS c = true
    · have hrest : NoTag rest := noTag_tail c rest h
      cases b with
      | true => rw [collapseGo_ws_t c rest hws]; exact ih true hrest
      | false =>
        rw [collapseGo_ws_f c rest hws]
        rw [NoTag, if_neg (by decide : ¬ (' ' : Char) = '<')]
        exact ih true hrest
    · have hws' : isSpaceJS c = false := by simpa using hws
      rw [collapseGo_nws b c rest hws']
      by_cases hc : c = '<'
      · subst hc
        rw [NoTag, if_pos rfl] at h ⊢
        by_cases hm : '>' ∈ rest
        · rw [if_pos hm] at h
          obtain ⟨hsg, hnt⟩ := h
          cases rest with
          | nil => exact absurd hsg (by rw [StartsGt]; exact not_false)
          | cons r0 t =>
            rw [StartsGt] at hsg
            subst hsg
            rw [collapseGo_nws false '>' t (by decide)]
            rw [if_pos (by simp : '>' ∈ '>' :: collapseGo false t)]
            constructor
            · rw [StartsGt]
            · have := ih false hnt
              rw [collapseGo_nws false '>' t (by decide)] at this
              exact this
        · have hm2 : '>' ∉ collapseGo false rest := by
            intro hx
            rcases collapseGo_mem rest false '>' hx with h2 | h2
            · exact hm h2
            · exact absurd h2 (by decide)
          rw [if_neg hm2]
          trivial
      · rw [NoTag, if_neg hc] at h ⊢
        exact ih false h

theorem startsWS_cons (c : Char) (l : List Char) : StartsWS (c :: l) ↔ isSpaceJS c = true := by
  rw [StartsWS]

theorem noTag_dropWhile (l : List Char) (h : NoTag l) :
    NoTag (List.dropWhile isSpaceJS l) := by
  induction l with
  | nil => trivial
  | cons c rest ih =>
    rw [List.dropWhile]
    by_cases hws : isSpaceJS c = true
    · rw [hws]
      exact ih (noTag_tail c rest h)
    · rw [(by simpa using hws : isSpaceJS c = false)]
      exact h

theorem wsNorm_tail (c : Char) (l : List Char) (h : WsNorm (c :: l)) : WsNorm l := h.2

theorem wsNorm_dropWhile (l : List Char) (h : WsNorm l) :
    WsNorm (List.dropWhile isSpaceJS l) := by
  induction l with
  | nil => trivial
  | cons c rest ih =>
    rw [List.dropWhile]
    by_cases hws : isSpaceJS c = true
    · rw [hws]
      exact ih (wsNorm_tail c rest h)
    · rw [(by simpa using hws : isSpaceJS c = false)]
      exact h

theorem noTag_append_ws (l : List Char) : ∀ w : List Char, (∀ c ∈ w, isSpaceJS c = true) →
    NoTag (l ++ w) → NoTag l := by
  induction l with
  | nil => intro w _ _; trivial
  | cons c rest ih =>
    intro w hw h
    by_cases hc : c = '<'
    · subst hc
      rw [List.cons_append, NoTag, if_pos rfl] at h
      rw [NoTag, if_pos rfl]
      have hgtw : '>' ∉ w := by
        intro hm
        exact absurd (hw '>' hm) (by decide)
      by_cases hm : '>' ∈ rest
      · rw [if_pos hm]
        rw [if_pos (by simp [hm] : '>' ∈ rest ++ w)] at h
        obtain ⟨hsg, hnt⟩ := h
        constructor
        · cases rest with
          | nil => simp at hm
          | cons r0 t =>
            rw [List.cons_append, StartsGt] at hsg
            rw [StartsGt]
            exact hsg
        · exact ih w hw hnt
      · rw [if_neg hm]
        trivial
    · rw [List.cons_append, NoTag, if_neg hc] at h
      rw [NoTag, if_neg hc]
      exact ih w hw h

theorem wsNorm_append (l : List Char) : ∀ w : List Char, WsNorm (l ++ w) → WsNorm l := by
  induction l with
  | nil => intro w _; trivial
  | cons c rest ih =>
    intro w h
    rw [List.cons_append, WsNorm] at h
    obtain ⟨himp, hrest⟩ := h
    refine ⟨?_, ih w hrest⟩
    intro hws
    obtain ⟨hsp, hnsw⟩ := himp hws
    refine ⟨hsp, ?_⟩
    intro hsw
    apply hnsw
    cases rest with
    | nil => exact absurd hsw (by rw [StartsWS]; exact not_false)
    | cons r0 t =>
      rw [startsWS_cons] at hsw
      rw [List.cons_append, startsWS_cons]
      exact hsw

theorem trimTail_decomp (l : List Char) :
    ∃ w : List Char, l = trimTail l ++ w ∧ ∀ c ∈ w, isSpaceJS c = true := by
  refine ⟨(l.reverse.takeWhile isSpaceJS).reverse, ?_, ?_⟩
  · have h := List.takeWhile_append_dropWhile isSpaceJS l.reverse
    rw [trimTail]
    conv_lhs => rw [← List.reverse_reverse l, ← h]
    rw [List.reverse_append]
  · intro c hc
    rw [List.mem_reverse] at hc
    exact List.mem_takeWhile_imp hc

theorem wsNorm_collapse (l : List Char) :
    (∀ b : Bool, WsNorm (collapseGo b l)) ∧ ¬ StartsWS (collapseGo true l) := by
  induction l with
  | nil => exact ⟨fun b => trivial, not_false⟩
  | cons c rest ih =>
    by_cases hws : isSpaceJS c = true
    · refine ⟨?_, ?_⟩
      · intro b
        cases b with
        | true =>
          rw [collapseGo_ws_t c rest hws]
          exact ih.1 true
        | false =>
          rw [collapseGo_ws_f c rest hws]
          exact ⟨fun _ => ⟨rfl, ih.2⟩, ih.1 true⟩
      · rw [collapseGo_ws_t c rest hws]
        exact ih.2
    · have hws' : isSpaceJS c = false := by simpa using hws
      refine ⟨?_, ?_⟩
      · intro b
        rw [collapseGo_nws b c rest hws']
        exact ⟨fun h2 => absurd h2 hws, ih.1 false⟩
      · rw [collapseGo_nws true c rest hws']
        rw [startsWS_cons]
        exact hws

theorem wsNorm_fix (l : List Char) (h : WsNorm l) :
    collapseGo false l = l ∧ (¬ StartsWS l → collapseGo true l = l) := by
  induction l with
  | nil => exact ⟨rfl, fun _ => rfl⟩
  | cons c rest ih =>
    obtain ⟨himp, hrest⟩ := h
    by_cases hws : isSpaceJS c = true
    · obtain ⟨hsp, hnsw⟩ := himp hws
      subst hsp
      refine ⟨?_, ?_⟩
      · rw [collapseGo_ws_f ' ' rest (by decide), (ih hrest).2 hnsw]
      · intro hn
        exact absurd ((startsWS_cons ' ' rest).mpr (by decide)) hn
    · have hws' : isSpaceJS c = false := by simpa using hws
      exact ⟨by rw [collapseGo_nws false c rest hws', (ih hrest).1],
        fun _ => by rw [collapseGo_nws true c rest hws', (ih hrest).1]⟩

theorem notStartsWS_dropWhile (l : List Char) :
    ¬ StartsWS (List.dropWhile isSpaceJS l) := by
  induction l with
  | nil => exact not_false
  | cons c rest ih =>
    rw [List.dropWhile]
    by_cases hws : isSpaceJS c = true
    · rw [hws]
      exact ih
    · rw [(by simpa using hws : isSpaceJS c = false)]
      rw [startsWS_cons]
      exact hws

theorem dropWhile_eq_self_not (l : List Char) (h : ¬ StartsWS l) :
    List.dropWhile isSpaceJS l = l := by
  cases l with
  | nil => rfl
  | cons c rest =>
    rw [startsWS_cons] at h
    rw [List.dropWhile, (by simpa using h : isSpaceJS c = false)]

theorem trimTail_eq_self (l : List Char) (h : ¬ StartsWS l.reverse) : trimTail l = l := by
  rw [trimTail, dropWhile_eq_self_not l.reverse h, List.reverse_reverse]

theorem notStartsWS_trimTail (l : List Char) (h : ¬ StartsWS l) : ¬ StartsWS (trimTail l) := by
  obtain ⟨w, hdec, _⟩ := trimTail_decomp l
  cases htl : trimTail l with
  | nil => exact not_false
  | cons c t =>
    rw [htl] at hdec
    rw [startsWS_cons]
    intro hsw
    apply h
    rw [hdec, List.cons_append, startsWS_cons]
    exact hsw

theorem notStartsWS_reverse_trimTail (l : List Char) : ¬ StartsWS (trimTail l).reverse := by
  rw [trimTail, List.reverse_reverse]
  exact notStartsWS_dropWhile l.reverse

theorem trimJS_idem (l : List Char) : trimJS (trimJS l) = trimJS l := by
  have h1 : ¬ StartsWS (trimHead l) := notStartsWS_dropWhile l
  have h2 : ¬ StartsWS (trimJS l) := notStartsWS_trimTail (trimHead l) h1
  calc trimJS (trimJS l) = trimTail (trimHead (trimJS l)) := rfl
    _ = trimTail (trimJS l) := by
        rw [show trimHead (trimJS l) = trimJS l from dropWhile_eq_self_not (trimJS l) h2]
    _ = trimJS l := trimTail_eq_self (trimJS l) (notStartsWS_reverse_trimTail (trimHead l))

theorem noTag_trimJS (l : List Char) (h : NoTag l) : NoTag (trimJS l) := by
  have h1 : NoTag (trimHead l) := noTag_dropWhile l h
  obtain ⟨w, hdec, hw⟩ := trimTail_decomp (trimHead l)
  rw [hdec] at h1
  exact noTag_append_ws (trimTail (trimHead l)) w hw h1

theorem wsNorm_trimJS (l : List Char) (h : WsNorm l) : WsNorm (trimJS l) := by
  have h1 : WsNorm (trimHead l) := wsNorm_dropWhile l h
  obtain ⟨w, hdec, _⟩ := trimTail_decomp (trimHead l)
  rw [hdec] at h1
  exact wsNorm_append (trimTail (trimHead l)) w h1

/-- C6: `stripTags` is idempotent, and in particular
`stripTags "<b>Hello</b>  World" = "Hello World"`. -/
theorem stripTags_idempotent :
    (∀ x : String, stripTags (stripTags x) = stripTags x) ∧
    stripTags "<b>Hello</b>  World" = "Hello World" := by
  refine ⟨?_, by decide⟩
  intro x
  have hNT : NoTag (trimJS (collapseWS (removeTags x.data))) :=
    noTag_trimJS _ (noTag_collapse _ false (removeTagsGo_noTag x.data.length x.data (Nat.le_refl _)))
  have hWN : WsNorm (trimJS (collapseWS (removeTags x.data))) :=
    wsNorm_trimJS _ ((wsNorm_collapse (removeTags x.data)).1 false)
  rw [stripTags, stripTags]
  have hdata : (String.mk (trimJS (collapseWS (removeTags x.data)))).data
      = trimJS (collapseWS (removeTags x.data)) := rfl
  rw [hdata]
  rw [show removeTags (trimJS (collapseWS (removeTags x.data)))
      = trimJS (collapseWS (removeTags x.data)) from removeTagsGo_fix _ _ hNT]
  rw [show collapseWS (trimJS (collapseWS (removeTags x.data)))
      = trimJS (collapseWS (removeTags x.data)) from (wsNorm_fix _ hWN).1]
  rw [trimJS_idem]

/-! ## C7: grouping by channel -/

theorem pushBucket_lookup_self (m : List (String × List Programme)) (k : String) (p : Programme) :
    lookupAssoc (pushBucket m k p) k = some ((lookupAssoc m k).getD [] ++ [p]) := by
  induction m with
  | nil => simp [pushBucket, lookupAssoc]
  | cons kv rest ih =>
    cases kv with
    | mk k0 l0 =>
      rw [pushBucket]
      by_cases hk : k0 = k
      · subst hk
        rw [if_pos rfl]
        simp [lookupAssoc]
      · rw [if_neg hk]
        rw [lookupAssoc, if_neg hk, ih, lookupAssoc, if_neg hk]

theorem pushBucket_lookup_other (m : List (String × List Programme)) (k k' : String)
    (p : Programme) (h : ¬ k = k') :
    lookupAssoc (pushBucket m k p) k' = lookupAssoc m k' := by
  induction m with
  | nil => simp [pushBucket, lookupAssoc, h]
  | cons kv rest ih =>
    cases kv with
    | mk k0 l0 =>
      rw [pushBucket]
      by_cases hk : k0 = k
      · subst hk
        rw [if_pos rfl]
        simp [lookupAssoc, h]
      · rw [if_neg hk, lookupAssoc, lookupAssoc, ih]

theorem pushBucket_keys (m : List (String × List Programme)) (k : String) (p : Programme) :
    (pushBucket m k p).map Prod.fst
      = if k ∈ m.map Prod.fst then m.map Prod.fst else m.map Prod.fst ++ [k] := by
  induction m with
  | nil => simp [pushBucket]
  | cons kv rest ih =>
    cases kv with
    | mk k0 l0 =>
      rw [pushBucket]
      by_cases hk : k0 = k
      · subst hk
        rw [if_pos rfl]
        simp
      · have hne : ¬ k = k0 := fun h2 => hk h2.symm
        rw [if_neg hk]
        by_cases hm : k ∈ rest.map Prod.fst
        · simp [ih, hm, hne]
        · simp [ih, hm, hne]

theorem groupFold_lookup_some (ps : List Programme) :
    ∀ (m : List (String × List Programme)) (ch : String) (l : List Programme),
    lookupAssoc m ch = some l →
    lookupAssoc (ps.foldl (fun m p => pushBucket m (effChannel p) p) m) ch
      = some (l ++ ps.filter (fun p => effChannel p = ch)) := by
  induction ps with
  | nil => intro m ch l h; simpa using h
  | cons p ps ih =>
    intro m ch l h
    rw [List.foldl_cons]
    by_cases hc : effChannel p = ch
    · have h2 : lookupAssoc (pushBucket m (effChannel p) p) ch = some (l ++ [p]) := by
        rw [hc, pushBucket_lookup_self, h]
        rfl
      rw [ih _ ch (l ++ [p]) h2, List.filter_cons_of_pos (by simp [hc])]
      simp
    · have h2 : lookupAssoc (pushBucket m (effChannel p) p) ch = some l := by
        rw [pushBucket_lookup_other m _ ch p hc, h]
      rw [ih _ ch l h2, List.filter_cons_of_neg (by simp [hc])]

theorem groupFold_lookup_none (ps : List Programme) :
    ∀ (m : List (String × List Programme)) (ch : String),
    lookupAssoc m ch = none →
    lookupAssoc (ps.foldl (fun m p => pushBucket m (effChannel p) p) m) ch
      = if ps.filter (fun p => effChannel p = ch) = [] then none
        else some (ps.filter (fun p => effChannel p = ch)) := by
  induction ps with
  | nil => intro m ch h; simpa using h
  | cons p ps ih =>
    intro m ch h
    rw [List.foldl_cons]
    by_cases hc : effChannel p = ch
    · have h2 : lookupAssoc (pushBucket m (effChannel p) p) ch = some [p] := by
        rw [hc, pushBucket_lookup_self, h]
        rfl
      rw [groupFold_lookup_some ps _ ch [p] h2, List.filter_cons_of_pos (by simp [hc])]
      rw [if_neg (by simp)]
      simp
    · have h2 : lookupAssoc (pushBucket m (effChannel p) p) ch = none := by
        rw [pushBucket_lookup_other m _ ch p hc, h]
      rw [ih _ ch h2, List.filter_cons_of_neg (by simp [hc])]

theorem groupFold_keys (ps : List Programme) :
    ∀ m : List (String × List Programme),
    (ps.foldl (fun m p => pushBucket m (effChannel p) p) m).map Prod.fst
      = (ps.map effChannel).foldl (fun acc x => if x ∈ acc then acc else acc ++ [x])
          (m.map Prod.fst) := by
  induction ps with
  | nil => intro m; simp
  | cons p ps ih =>
    intro m
    rw [List.foldl_cons, List.map_cons, List.foldl_cons, ih, pushBucket_keys]

/-- C7: `groupByChannel` buckets a programme with empty channel under the
literal key `"unknown"`, creates one bucket per distinct effective channel
id in order of first appearance, preserves extraction order inside each
bucket (each bucket is exactly the order-preserving filter of the input),
and on two `"ch1"` programmes and one `"ch2"` programme produces exactly
the two keys with counts 2 and 1. -/
theorem groupByChannel_spec :
    (∀ ps : List Programme,
      (groupByChannel ps).map Prod.fst = firstKeys (ps.map effChannel)) ∧
    (∀ (ps : List Programme) (ch : String) (bucket : List Programme),
      lookupAssoc (groupByChannel ps) ch = some bucket →
      bucket = ps.filter (fun p => effChannel p = ch)) ∧
    (∀ (ps : List Programme) (p : Programme), p ∈ ps → p.channel = "" →
      ∃ bucket, lookupAssoc (groupByChannel ps) "unknown" = some bucket ∧ p ∈ bucket) ∧
    (∀ p1 p2 p3 : Programme, p1.channel = "ch1" → p2.channel = "ch1" → p3.channel = "ch2" →
      groupByChannel [p1, p2, p3] = [("ch1", [p1, p2]), ("ch2", [p3])]) := by
  refine ⟨?_, ?_, ?_, ?_⟩
  · intro ps
    rw [groupByChannel, firstKeys, groupFold_keys ps []]
    rfl
  · intro ps ch bucket h
    rw [groupByChannel] at h
    have hB := groupFold_lookup_none ps [] ch rfl
    by_cases hf : ps.filter (fun p => effChannel p = ch) = []
    · rw [if_pos hf] at hB
      rw [hB] at h
      cases h
    · rw [if_neg hf] at hB
      rw [hB] at h
      exact (Option.some.injEq _ _).mp h.symm
  · intro ps p hp hch
    have hec : effChannel p = "unknown" := by rw [effChannel, if_pos hch]
    have hpf : p ∈ ps.filter (fun q => effChannel q = "unknown") := by
      rw [List.mem_filter]
      exact ⟨hp, by simp [hec]⟩
    have hne : ¬ ps.filter (fun q => effChannel q = "unknown") = [] := by
      intro h0
      rw [h0] at hpf
      simp at hpf
    have hB := groupFold_lookup_none ps [] "unknown" rfl
    rw [if_neg hne] at hB
    rw [groupByChannel]
    exact ⟨_, hB, hpf⟩
  · intro p1 p2 p3 h1 h2 h3
    rw [groupByChannel]
    simp [effChannel, pushBucket, h1, h2, h3]

/-- Witness for C7 on three concrete programmes. -/
theorem groupByChannel_spec_witness :
    groupByChannel [testProg "ch1", testProg "ch1", testProg "ch2"]
      = [("ch1", [testProg "ch1", testProg "ch1"]), ("ch2", [testProg "ch2"])] :=
  groupByChannel_spec.2.2.2 (testProg "ch1") (testProg "ch1") (testProg "ch2") rfl rfl rfl

/-! ## C9: image resolution -/

theorem lookupAssoc_mem {α : Type} (m : List (String × α)) (k : String) (v : α)
    (h : lookupAssoc m k = some v) : (k, v) ∈ m := by
  induction m with
  | nil => simp [lookupAssoc] at h
  | cons kv rest ih =>
    cases kv with
    | mk k0 v0 =>
      rw [lookupAssoc] at h
      by_cases hk : k0 = k
      · subst hk
        rw [if_pos rfl] at h
        simp only [Option.some.injEq] at h
        subst h
        simp
      · rw [if_neg hk] at h
        exact List.mem_cons_of_mem _ (ih h)

theorem imInsert_inv (m : List (String × String)) (it : String × String)
    (hm : ∀ kv ∈ m, ¬ kv.1 = "" ∧ ¬ kv.2 = "") :
    ∀ kv ∈ imInsert m it, ¬ kv.1 = "" ∧ ¬ kv.2 = "" := by
  intro kv hkv
  rw [imInsert] at hkv
  by_cases h1 : (lcTrim it.1 = "" || it.2 = "") = true
  · rw [if_pos h1] at hkv
    exact hm kv hkv
  · rw [if_neg h1] at hkv
    simp only [Bool.or_eq_true, decide_eq_true_eq] at h1
    push_neg at h1
    by_cases h2 : (lookupAssoc m (lcTrim it.1)).isSome
    · rw [if_pos h2] at hkv
      exact hm kv hkv
    · rw [if_neg h2] at hkv
      rcases List.mem_append.mp hkv with hold | hnew
      · exact hm kv hold
      · simp only [List.mem_singleton] at hnew
        subst hnew
        exact ⟨h1.1, h1.2⟩

theorem buildImageMap_inv (schedule : List (String × String)) :
    ∀ kv ∈ buildImageMap schedule, ¬ kv.1 = "" ∧ ¬ kv.2 = "" := by
  rw [buildImageMap]
  have hgen : ∀ m : List (String × String), (∀ kv ∈ m, ¬ kv.1 = "" ∧ ¬ kv.2 = "") →
      ∀ kv ∈ schedule.foldl imInsert m, ¬ kv.1 = "" ∧ ¬ kv.2 = "" := by
    induction schedule with
    | nil => intro m hm kv hkv; exact hm kv (by simpa using hkv)
    | cons it sched ih =>
      intro m hm kv hkv
      rw [List.foldl_cons] at hkv
      exact ih (imInsert m it) (imInsert_inv m it hm) kv hkv
  exact hgen [] (by simp)

/-- C9: `resolveImage` looks the trimmed lowercase title up in the channel's
title index and returns the indexed URL on an exact match, and the fixed
default placeholder otherwise; in particular, on an index containing
`{"the show": "http://img/1.png"}` the title `"  The Show  "` resolves to
that URL and any unmatched title resolves to the default. -/
theorem resolveImage_spec :
    resolveImage (some (buildImageMap [("the show", "http://img/1.png")])) "  The Show  "
      = "http://img/1.png" ∧
    resolveImage (some (buildImageMap [("the show", "http://img/1.png")])) "No Match"
      = DEFAULT_IMAGE ∧
    (∀ (schedule : List (String × String)) (title url : String),
      lookupAssoc (buildImageMap schedule) (lcTrim title) = some url →
      resolveImage (some (buildImageMap schedule)) title = url) ∧
    (∀ (schedule : List (String × String)) (title : String),
      lookupAssoc (buildImageMap schedule) (lcTrim title) = none →
      resolveImage (some (buildImageMap schedule)) title = DEFAULT_IMAGE) ∧
    (∀ title : String, resolveImage none title = DEFAULT_IMAGE) := by
  refine ⟨by decide, by decide, ?_, ?_, fun title => rfl⟩
  · intro schedule title url h
    have hmem := lookupAssoc_mem _ _ _ h
    have hinv := buildImageMap_inv schedule _ hmem
    rw [resolveImage]
    rw [if_neg hinv.1, h]
    show (if url = "" then DEFAULT_IMAGE else url) = url
    rw [if_neg hinv.2]
  · intro schedule title h
    rw [resolveImage]
    by_cases hk : lcTrim title = ""
    · rw [if_pos hk]
    · rw [if_neg hk, h]

/-- Witness for C9 on a small concrete index. -/
theorem resolveImage_spec_witness :
    resolveImage (some (buildImageMap [("alpha", "http://img/a.png")])) " Alpha "
      = "http://img/a.png" :=
  resolveImage_spec.2.2.1 [("alpha", "http://img/a.png")] " Alpha " "http://img/a.png" (by decide)

/-! ## C2, C8: the programme extractor -/

theorem prefix_cons_cons (c : Char) (l₁ l₂ : List Char) (h : l₁ <+: l₂) :
    c :: l₁ <+: c :: l₂ := by
  obtain ⟨t, ht⟩ := h
  exact ⟨t, by rw [List.cons_append, ht]⟩

theorem tryPats_post (pats : List (List Char)) (wordB : Bool) (cs post : List Char)
    (h : tryPats pats wordB cs = some post) : post <:+ cs := by
  induction pats with
  | nil => simp [tryPats] at h
  | cons p ps ih =>
    rw [tryPats] at h
    by_cases hc : (startsWithCI p cs && (!wordB || boundaryOk (cs.drop p.length))) = true
    · rw [if_pos hc] at h
      simp only [Option.some.injEq] at h
      subst h
      exact List.drop_suffix p.length cs
    · rw [if_neg hc] at h
      exact ih h

theorem splitPats_parts (pats : List (List Char)) (wordB : Bool) :
    ∀ cs pre post : List Char, splitPats pats wordB cs = some (pre, post) →
    pre <+: cs ∧ post <:+ cs := by
  intro cs
  induction cs with
  | nil =>
    intro pre post h
    rw [splitPats] at h
    cases ht : tryPats pats wordB [] with
    | none => rw [ht] at h; simp at h
    | some post0 =>
      rw [ht] at h
      simp only [Option.some.injEq, Prod.mk.injEq] at h
      obtain ⟨h1, h2⟩ := h
      subst h1; subst h2
      exact ⟨ List.nil_prefix, tryPats_post pats wordB [] post0 ht⟩
  | cons c rest ih =>
    intro pre post h
    rw [splitPats] at h
    cases ht : tryPats pats wordB (c :: rest) with
    | some post0 =>
      rw [ht] at h
      simp only [Option.some.injEq, Prod.mk.injEq] at h
      obtain ⟨h1, h2⟩ := h
      subst h1; subst h2
      exact ⟨ List.nil_prefix, tryPats_post pats wordB (c :: rest) post0 ht⟩
    | none =>
      rw [ht] at h
      cases hrec : splitPats pats wordB rest with
      | none => rw [hrec] at h; simp at h
      | some q =>
        cases q with
        | mk a b =>
          rw [hrec] at h
          simp only [Option.some.injEq, Prod.mk.injEq] at h
          obtain ⟨h1, h2⟩ := h
          subst h1; subst h2
          obtain ⟨hpre, hpost⟩ := ih a b hrec
          exact ⟨prefix_cons_cons c a rest hpre, hpost.trans (List.suffix_cons c rest)⟩

theorem splitAtGt_parts (cs pre post : List Char) (h : splitAtGt cs = some (pre, post)) :
    pre <+: cs ∧ post <:+ cs := by
  have hd := splitAtGt_eq cs pre post h
  subst hd
  constructor
  · exact List.prefix_append pre ('>' :: post)
  · exact ⟨pre ++ ['>'], by simp⟩

theorem progGo_infix (fuel : Nat) : ∀ cs : List Char, ∀ sp ∈ progGo fuel cs,
    sp.attrText <:+: cs ∧ sp.inner <:+: cs := by
  induction fuel with
  | zero => intro cs sp hsp; simp [progGo] at hsp
  | succ fuel ih =>
    intro cs sp hsp
    cases h1 : splitPats [['<', 'p', 'r', 'o', 'g', 'r', 'a', 'm', 'm', 'e']] true cs with
    | none => simp [progGo, h1] at hsp
    | some q1 =>
      cases q1 with
      | mk pre1 afterOpen =>
        cases h2 : splitAtGt afterOpen with
        | none => simp [progGo, h1, h2] at hsp
        | some q2 =>
          cases q2 with
          | mk attrText afterGt =>
            cases h3 : splitPats [['<', '/', 'p', 'r', 'o', 'g', 'r', 'a', 'm', 'm', 'e', '>']]
                false afterGt with
            | none => simp [progGo, h1, h2, h3] at hsp
            | some q3 =>
              cases q3 with
              | mk inner afterClose =>
                have hstep : progGo (fuel + 1) cs
                    = ⟨attrText, inner⟩ :: progGo fuel afterClose := by
                  simp [progGo, h1, h2, h3]
                rw [hstep] at hsp
                have hAO : afterOpen <:+ cs := (splitPats_parts _ _ cs pre1 afterOpen h1).2
                have hAT : attrText <+: afterOpen := (splitAtGt_parts afterOpen _ _ h2).1
                have hAG : afterGt <:+ afterOpen := (splitAtGt_parts afterOpen _ _ h2).2
                have hIN : inner <+: afterGt := (splitPats_parts _ _ afterGt _ _ h3).1
                have hAC : afterClose <:+ afterGt := (splitPats_parts _ _ afterGt _ _ h3).2
                rcases List.mem_cons.mp hsp with hhd | htl
                · subst hhd
                  exact ⟨hAT.isInfix.trans hAO.isInfix, (hIN.isInfix.trans hAG.isInfix).trans hAO.isInfix⟩
                · have hsub := ih afterClose sp htl
                  have hACcs : afterClose <:+ cs := (hAC.trans hAG).trans hAO
                  exact ⟨hsub.1.trans hACcs.isInfix, hsub.2.trans hACcs.isInfix⟩

theorem lookupLast_mem (l : List (String × String)) (k v : String)
    (h : lookupLast l k = some v) : (k, v) ∈ l := by
  induction l with
  | nil => simp [lookupLast] at h
  | cons kv rest ih =>
    cases kv with
    | mk a v0 =>
      rw [lookupLast] at h
      cases hr : lookupLast rest k with
      | some r =>
        rw [hr] at h
        simp only [Option.some.injEq] at h
        subst h
        exact List.mem_cons_of_mem _ (ih hr)
      | none =>
        rw [hr] at h
        by_cases ha : a = k
        · rw [if_pos ha] at h
          simp only [Option.some.injEq] at h
          subst h; subst ha
          simp
        · rw [if_neg ha] at h
          cases h

theorem eqQuote?_eq (l t : List Char) (h : eqQuote? l = some t) : l = '=' :: '"' :: t := by
  cases l with
  | nil => simp [eqQuote?] at h
  | cons c1 l1 =>
    cases l1 with
    | nil => simp [eqQuote?] at h
    | cons c2 l2 =>
      rw [eqQuote?] at h
      by_cases hc : (c1 = '=' && c2 = '"') = true
      · rw [if_pos hc] at h
        simp only [Option.some.injEq] at h
        subst h
        simp only [Bool.and_eq_true, decide_eq_true_eq] at hc
        rw [hc.1, hc.2]
      · rw [if_neg hc] at h
        cases h

theorem splitAtQuote_eq (cs : List Char) : ∀ pre post : List Char,
    splitAtQuote cs = some (pre, post) → cs = pre ++ '"' :: post := by
  induction cs with
  | nil => intro pre post h; simp [splitAtQuote] at h
  | cons c rest ih =>
    intro pre post h
    rw [splitAtQuote] at h
    by_cases hc : c = '"'
    · rw [if_pos hc] at h
      simp only [Option.some.injEq, Prod.mk.injEq] at h
      obtain ⟨h1, h2⟩ := h
      subst h1; subst h2; subst hc
      rfl
    · rw [if_neg hc] at h
      cases hrec : splitAtQuote rest with
      | none => rw [hrec] at h; simp at h
      | some p =>
        cases p with
        | mk a b =>
          rw [hrec] at h
          simp only [Option.some.injEq, Prod.mk.injEq] at h
          obtain ⟨h1, h2⟩ := h
          subst h1; subst h2
          rw [ih a b hrec]
          rfl

theorem scanAttrsGo_val_infix (fuel : Nat) : ∀ (l : List Char) (k v : String),
    (k, v) ∈ scanAttrsGo fuel l → v.data <:+: l := by
  induction fuel with
  | zero => intro l k v h; simp [scanAttrsGo] at h
  | succ fuel ih =>
    intro l k v h
    cases l with
    | nil => simp [scanAttrsGo] at h
    | cons c rest =>
      by_cases hn : isNameChar c = true
      · cases h1 : eqQuote? (rest.dropWhile isNameChar) with
        | none =>
          have hstep : scanAttrsGo (fuel + 1) (c :: rest)
              = scanAttrsGo fuel (rest.dropWhile isNameChar) := by
            simp [scanAttrsGo, hn, h1]
          rw [hstep] at h
          have := ih _ k v h
          exact this.trans ((List.dropWhile_suffix isNameChar).trans
            (List.suffix_cons c rest)).isInfix
        | some t =>
          cases h2 : splitAtQuote t with
          | none =>
            have hstep : scanAttrsGo (fuel + 1) (c :: rest) = [] := by
              simp [scanAttrsGo, hn, h1, h2]
            rw [hstep] at h
            cases h
          | some q =>
            cases q with
            | mk vchars t2 =>
              have hstep : scanAttrsGo (fuel + 1) (c :: rest)
                  = (String.mk (c :: rest.takeWhile isNameChar), String.mk vchars)
                    :: scanAttrsGo fuel t2 := by
                simp [scanAttrsGo, hn, h1, h2]
              rw [hstep] at h
              have hte := eqQuote?_eq _ t h1
              have htq := splitAtQuote_eq t vchars t2 h2
              have htRest : t <:+ rest := by
                have h3 : t <:+ rest.dropWhile isNameChar := by
                  rw [hte]
                  exact (List.suffix_cons '"' t).trans (List.suffix_cons '=' ('"' :: t))
                exact h3.trans (List.dropWhile_suffix isNameChar)
              rcases List.mem_cons.mp h with hhd | htl
              · have hv : v = String.mk vchars := by
                  have := congrArg Prod.snd hhd
                  simpa using this
                subst hv
                have hvp : vchars <+: t := by
                  rw [htq]
                  exact List.prefix_append vchars ('"' :: t2)
                have : vchars <:+: c :: rest :=
                  (hvp.isInfix.trans htRest.isInfix).trans (List.suffix_cons c rest).isInfix
                exact this
              · have ht2 : t2 <:+ t := by
                  rw [htq]
                  exact ⟨vchars ++ ['"'], by simp⟩
                have := ih t2 k v htl
                exact (this.trans ht2.isInfix).trans
                  (htRest.trans (List.suffix_cons c rest)).isInfix
      · have hstep : scanAttrsGo (fuel + 1) (c :: rest) = scanAttrsGo fuel rest := by
          simp [scanAttrsGo, hn]
        rw [hstep] at h
        exact (ih rest k v h).trans (List.suffix_cons c rest).isInfix

/-- C2: `parseEPGProgrammes` emits exactly one record per matched
`<programme>` span, in document order (record `i` is built from span `i`,
and the counts agree, so no matched span is skipped); a span with no
`start`, `stop` or `channel` attribute yields `""` for that field, a span
with no `<title>` element yields title `"Untitled"`, and a span with no
sub-title element yields subTitle `""`. -/
theorem extract_one_record_per_span (xml : String) :
    (parseEPGProgrammes xml).length = (progSpans xml.data).length ∧
    ∀ (i : Nat) (hi : i < (progSpans xml.data).length)
      (hj : i < (parseEPGProgrammes xml).length),
      ((parseEPGProgrammes xml).get ⟨i, hj⟩
          = mkProgramme ((progSpans xml.data).get ⟨i, hi⟩)) ∧
      (lookupLast (scanAttrs ((progSpans xml.data).get ⟨i, hi⟩).attrText) "start" = none →
        ((parseEPGProgrammes xml).get ⟨i, hj⟩).startRaw = "") ∧
      (lookupLast (scanAttrs ((progSpans xml.data).get ⟨i, hi⟩).attrText) "stop" = none →
        ((parseEPGProgrammes xml).get ⟨i, hj⟩).stopRaw = "") ∧
      (lookupLast (scanAttrs ((progSpans xml.data).get ⟨i, hi⟩).attrText) "channel" = none →
        ((parseEPGProgrammes xml).get ⟨i, hj⟩).channel = "") ∧
      (extractBody titleOpenPats titleClosePats ((progSpans xml.data).get ⟨i, hi⟩).inner = none →
        ((parseEPGProgrammes xml).get ⟨i, hj⟩).title = "Untitled") ∧
      (extractBody subOpenPats subClosePats ((progSpans xml.data).get ⟨i, hi⟩).inner = none →
        ((parseEPGProgrammes xml).get ⟨i, hj⟩).subTitle = "") := by
  refine ⟨by simp [parseEPGProgrammes], ?_⟩
  intro i hi hj
  have hmap : (parseEPGProgrammes xml).get ⟨i, hj⟩
      = mkProgramme ((progSpans xml.data).get ⟨i, hi⟩) := by
    simp [parseEPGProgrammes]
  refine ⟨hmap, ?_, ?_, ?_, ?_, ?_⟩
  · intro h
    rw [hmap]
    rw [List.get_eq_getElem] at h
    simp [mkProgramme, h]
  · intro h
    rw [hmap]
    rw [List.get_eq_getElem] at h
    simp [mkProgramme, h]
  · intro h
    rw [hmap]
    rw [List.get_eq_getElem] at h
    simp [mkProgramme, h]
  · intro h
    rw [hmap]
    rw [List.get_eq_getElem] at h
    simp [mkProgramme, h]
  · intro h
    rw [hmap]
    rw [List.get_eq_getElem] at h
    simp [mkProgramme, h]

/-- Witness for C2 on a concrete attribute-less, title-less span. -/
theorem extract_one_record_per_span_witness :
    ((parseEPGProgrammes "<programme></programme>").get ⟨0, by decide⟩).title = "Untitled" ∧
    ((parseEPGProgrammes "<programme></programme>").get ⟨0, by decide⟩).channel = "" ∧
    ((parseEPGProgrammes "<programme></programme>").get ⟨0, by decide⟩).startRaw = "" := by
  have h := (extract_one_record_per_span "<programme></programme>").2 0 (by decide) (by decide)
  exact ⟨h.2.2.2.2.1 (by decide), h.2.2.2.1 (by decide), h.2.1 (by decide)⟩

/-- C8: `startRaw` and `stopRaw` are exactly the looked-up raw attribute
values of the span (never reformatted — the record field is the verbatim
lookup result, independently of whether the derived display strings were
normalized), and when nonempty each is a contiguous substring of the source
document. -/
theorem startRaw_verbatim (xml : String) :
    ∀ (i : Nat) (hi : i < (progSpans xml.data).length)
      (hj : i < (parseEPGProgrammes xml).length),
      (((parseEPGProgrammes xml).get ⟨i, hj⟩).startRaw
        = (lookupLast (scanAttrs ((progSpans xml.data).get ⟨i, hi⟩).attrText) "start").getD "") ∧
      (((parseEPGProgrammes xml).get ⟨i, hj⟩).stopRaw
        = (lookupLast (scanAttrs ((progSpans xml.data).get ⟨i, hi⟩).attrText) "stop").getD "") ∧
      (((parseEPGProgrammes xml).get ⟨i, hj⟩).startRaw = "" ∨
        ((parseEPGProgrammes xml).get ⟨i, hj⟩).startRaw.data <:+: xml.data) ∧
      (((parseEPGProgrammes xml).get ⟨i, hj⟩).stopRaw = "" ∨
        ((parseEPGProgrammes xml).get ⟨i, hj⟩).stopRaw.data <:+: xml.data) := by
  intro i hi hj
  have hmap : (parseEPGProgrammes xml).get ⟨i, hj⟩
      = mkProgramme ((progSpans xml.data).get ⟨i, hi⟩) := by
    simp [parseEPGProgrammes]
  have hspan : (progSpans xml.data).get ⟨i, hi⟩ ∈ progSpans xml.data :=
    List.get_mem (progSpans xml.data) i hi
  have hinf := progGo_infix xml.data.length xml.data _ hspan
  have hvrb : ∀ key : String,
      (lookupLast (scanAttrs ((progSpans xml.data).get ⟨i, hi⟩).attrText) key).getD "" = "" ∨
      ((lookupLast (scanAttrs ((progSpans xml.data).get ⟨i, hi⟩).attrText) key).getD "").data
        <:+: xml.data := by
    intro key
    cases hlk : lookupLast (scanAttrs ((progSpans xml.data).get ⟨i, hi⟩).attrText) key with
    | none => exact Or.inl rfl
    | some v =>
      right
      have hmem := lookupLast_mem _ key v hlk
      have hvi := scanAttrsGo_val_infix _ _ key v hmem
      show v.data <:+: xml.data
      exact hvi.trans hinf.1
  refine ⟨?_, ?_, ?_, ?_⟩
  · rw [hmap]
    rfl
  · rw [hmap]
    rfl
  · rw [hmap]
    exact hvrb "start"
  · rw [hmap]
    exact hvrb "stop"

/-- Witness for C8 on a concrete document. -/
theorem startRaw_verbatim_witness :
    ((parseEPGProgrammes "<programme start=\"20240101120000 +0530\"></programme>").get
        ⟨0, by decide⟩).startRaw
      = (lookupLast (scanAttrs ((progSpans
          ("<programme start=\"20240101120000 +0530\"></programme>" : String).data).get
            ⟨0, by decide⟩).attrText) "start").getD "" ∧
    (((parseEPGProgrammes "<programme start=\"20240101120000 +0530\"></programme>").get
        ⟨0, by decide⟩).startRaw = "" ∨
      ((parseEPGProgrammes "<programme start=\"20240101120000 +0530\"></programme>").get
        ⟨0, by decide⟩).startRaw.data
        <:+: ("<programme start=\"20240101120000 +0530\"></programme>" : String).data) := by
  have h := startRaw_verbatim "<programme start=\"20240101120000 +0530\"></programme>"
    0 (by decide) (by decide)
  exact ⟨h.1, h.2.2.1⟩

end Epg

-- Concrete evaluations of the model, cross-checked against the script's
-- observable behavior on the same inputs.
example : Epg.parseXmltvTime (some "20240101120000Z") = some 1704110400000 := by decide
example : Epg.parseXmltvTime (some "20240101120000 +0530") = some 1704090600000 := by decide
example : Epg.parseXmltvTime (some "garbage") = none := by decide
example : Epg.formatTimeIST (some "20240101120000 +0530") = "2024-01-01 12:00:00 IST" := by decide
example : Epg.formatTimeIST (some "garbage") = "garbage" := by decide
example : Epg.formatTimeIST (some "01000101000000Z") = "100-01-01 05:30:00 IST" := by decide
example : Epg.parseXmltvTime (some "00000101000000+0000") = some (-2208988800000) := by decide
example : Epg.stripTags "<b>Hello</b>  World" = "Hello World" := by decide
example :
    Epg.parseEPGProgrammes "<programme channel=\"c1\" start=\"20240101120000 +0530\" stop=\"20240101123000 +0530\"><title>News</title></programme>"
    = [{ startRaw := "20240101120000 +0530", stopRaw := "20240101123000 +0530",
         start := "2024-01-01 12:00:00 IST", stop := "2024-01-01 12:30:00 IST",
         channel := "c1", title := "News", subTitle := "" }] := by decide
example :
    Epg.parseEPGProgrammes "<programme></programme>"
    = [{ startRaw := "", stopRaw := "", start := "", stop := "",
         channel := "", title := "Untitled", subTitle := "" }] := by decide
example :
    Epg.resolveImage (some (Epg.buildImageMap [("the show", "http://img/1.png")])) "  The Show  "
    = "http://img/1.png" := by decide
example :
    Epg.resolveImage (some (Epg.buildImageMap [("the show", "http://img/1.png")])) "Other"
    = Epg.DEFAULT_IMAGE := by decide
